import Mathlib

/-!
# Verification of the cloth-simulation core

Shallow embedding of the mass-spring cloth simulator (`Cloth.h` / `Cloth.cpp`)
over exact rational arithmetic.  `float` values are modelled as `ℚ`;
`glm::length` (a square root) is modelled by `Rat.sqrt`, which agrees with the
real square root exactly on perfect rational squares; theorems that depend on
genuine Euclidean geometry carry explicit exactness hypotheses of the form
`Rat.sqrt d2 * Rat.sqrt d2 = d2`.  Division by zero follows Lean's `ℚ`
convention (`x / 0 = 0`).
-/

attribute [local semireducible] Rat.mul Rat.add Rat.sub Rat.inv

namespace ClothSim

/-- Fuel-driven integer square root (floor), kernel-computable; the fuel only
bounds the recursion depth and `isqrt` always supplies enough. -/
def isqrtFuel : Nat → Nat → Nat
  | 0, _ => 0
  | fuel + 1, n =>
    if n < 2 then n
    else
      let s := 2 * isqrtFuel fuel (n / 4)
      if (s + 1) * (s + 1) ≤ n then s + 1 else s

/-- Floor integer square root. -/
def isqrt (n : Nat) : Nat := isqrtFuel n n

/-- Model of the float square root on `ℚ`: exact on perfect rational squares
(numerator and denominator squares), some rational approximation elsewhere. -/
def ratSqrt (q : ℚ) : ℚ := (isqrt q.num.toNat : ℚ) / (isqrt q.den : ℚ)

/-- Model of `glm::vec3` with exact rational components. -/
@[ext]
structure Vec3 where
  x : ℚ
  y : ℚ
  z : ℚ
  deriving DecidableEq

instance : Zero Vec3 := ⟨⟨0, 0, 0⟩⟩

instance : Add Vec3 := ⟨fun u v => ⟨u.x + v.x, u.y + v.y, u.z + v.z⟩⟩

instance : Sub Vec3 := ⟨fun u v => ⟨u.x - v.x, u.y - v.y, u.z - v.z⟩⟩

instance : Neg Vec3 := ⟨fun v => ⟨-v.x, -v.y, -v.z⟩⟩

instance : SMul ℚ Vec3 := ⟨fun t v => ⟨t * v.x, t * v.y, t * v.z⟩⟩

/-- `glm::dot`. -/
def dot (u v : Vec3) : ℚ := u.x * v.x + u.y * v.y + u.z * v.z

/-- Squared Euclidean norm. -/
def normSq (v : Vec3) : ℚ := dot v v

/-- Model of `glm::length`: the (float) square root of the squared norm,
modelled by the exact-on-perfect-squares `ratSqrt`. -/
def vlength (v : Vec3) : ℚ := ratSqrt (normSq v)

/-- Model of `glm::normalize`: `v / |v|` (division by a zero length yields the
zero vector under the `ℚ` convention; in IEEE floats it would produce NaN). -/
def vnormalize (v : Vec3) : Vec3 := (1 / vlength v) • v

/-- `Particle` from `Particle.h`. -/
@[ext]
structure Particle where
  position : Vec3
  prevPosition : Vec3
  velocity : Vec3
  force : Vec3
  mass : ℚ
  pinned : Bool
  deriving DecidableEq

instance : Inhabited Particle :=
  ⟨{ position := 0, prevPosition := 0, velocity := 0, force := 0, mass := 0, pinned := false }⟩

/-- `SpringType` from `Spring.h`. -/
inductive SpringType where
  | Structural
  | Shear
  | Bending
  deriving DecidableEq

/-- `Spring` from `Spring.h`. -/
structure Spring where
  a : Nat
  b : Nat
  restLength : ℚ
  stiffness : ℚ
  damping : ℚ
  type : SpringType
  deriving DecidableEq

instance : Inhabited Spring :=
  ⟨{ a := 0, b := 0, restLength := 0, stiffness := 0, damping := 0,
     type := SpringType.Structural }⟩

/-- The `Cloth` object (`Cloth.h`): tunable public fields, grid dimensions and
the particle / spring containers. -/
structure Cloth where
  gravity : Vec3
  airDamping : ℚ
  springStiffness : ℚ
  bendStiffness : ℚ
  springDamping : ℚ
  maxStretch : ℚ
  maxCompress : ℚ
  constraintIters : Nat
  rows : Nat
  cols : Nat
  spacing : ℚ
  particles : List Particle
  springs : List Spring
  deriving DecidableEq

/-- `Cloth::idx`: flat index from (row, col). -/
def idx (cols r c : Nat) : Nat := r * cols + c

/-- Read a particle by index (out-of-range reads, undefined behaviour in the
C++, return the default particle). -/
def getP (ps : List Particle) (i : Nat) : Particle := ps.getD i default

/-- In-place update of one list element, modelling `particles[i].field = …`. -/
def modifyAt : List α → Nat → (α → α) → List α
  | [], _, _ => []
  | a :: l, 0, f => f a :: l
  | a :: l, n + 1, f => a :: modifyAt l n f

/-- The unpinned grid laid out by the loop body of `Cloth::buildParticles`. -/
def rawParticles (rows cols : Nat) (spacing : ℚ) : List Particle :=
  let startX : ℚ := -((cols : ℚ) - 1) * spacing * (1 / 2)
  let startY : ℚ := ((rows : ℚ) - 1) * spacing
  (List.range rows).flatMap fun (r : Nat) =>
    (List.range cols).map fun (c : Nat) =>
      let pos : Vec3 := ⟨startX + (c : ℚ) * spacing, startY - (r : ℚ) * spacing, 0⟩
      { position := pos, prevPosition := pos, velocity := 0, force := 0,
        mass := 1, pinned := false }

/-- `particles[idx].pinned = true` (body of `Cloth::pin`). -/
def pinAt (ps : List Particle) (i : Nat) : List Particle :=
  modifyAt ps i fun p => { p with pinned := true }

/-- `Cloth::buildParticles`: the grid plus the two default top-corner pins. -/
def buildParticles (rows cols : Nat) (spacing : ℚ) : List Particle :=
  pinAt (pinAt (rawParticles rows cols spacing) (idx cols 0 0)) (idx cols 0 (cols - 1))

/-- `Cloth::addSpring`: rest length is the distance between the endpoints at
creation time; damping is copied from the current `springDamping` field. -/
def addSpring (ps : List Particle) (damping : ℚ) (a b : Nat) (stiffness : ℚ)
    (ty : SpringType) : Spring :=
  { a := a, b := b,
    restLength := vlength ((getP ps a).position - (getP ps b).position),
    stiffness := stiffness, damping := damping, type := ty }

/-- `Cloth::buildSprings`: structural, shear and bending springs generated per
grid cell, guarded by the bounds checks of the source. -/
def buildSprings (ps : List Particle) (rows cols : Nat)
    (springStiffness bendStiffness springDamping : ℚ) : List Spring :=
  (List.range rows).flatMap fun r =>
    (List.range cols).flatMap fun c =>
      (if c + 1 < cols then
        [addSpring ps springDamping (idx cols r c) (idx cols r (c + 1)) springStiffness SpringType.Structural]
       else []) ++
      (if r + 1 < rows then
        [addSpring ps springDamping (idx cols r c) (idx cols (r + 1) c) springStiffness SpringType.Structural]
       else []) ++
      (if r + 1 < rows ∧ c + 1 < cols then
        [addSpring ps springDamping (idx cols r c) (idx cols (r + 1) (c + 1)) springStiffness SpringType.Shear]
       else []) ++
      (if r + 1 < rows ∧ 1 ≤ c then
        [addSpring ps springDamping (idx cols r c) (idx cols (r + 1) (c - 1)) springStiffness SpringType.Shear]
       else []) ++
      (if c + 2 < cols then
        [addSpring ps springDamping (idx cols r c) (idx cols r (c + 2)) bendStiffness SpringType.Bending]
       else []) ++
      (if r + 2 < rows then
        [addSpring ps springDamping (idx cols r c) (idx cols (r + 2) c) bendStiffness SpringType.Bending]
       else [])

/-- Shared build routine: `buildParticles(); buildSprings();` run with the
current values of the tunable fields (used by the constructor and `reset`). -/
def buildCloth (gravity : Vec3) (airDamping springStiffness bendStiffness springDamping
    maxStretch maxCompress : ℚ) (constraintIters rows cols : Nat) (spacing : ℚ) : Cloth :=
  let ps := buildParticles rows cols spacing
  { gravity := gravity, airDamping := airDamping, springStiffness := springStiffness,
    bendStiffness := bendStiffness, springDamping := springDamping,
    maxStretch := maxStretch, maxCompress := maxCompress,
    constraintIters := constraintIters, rows := rows, cols := cols, spacing := spacing,
    particles := ps,
    springs := buildSprings ps rows cols springStiffness bendStiffness springDamping }

/-- Default gravity `{0, -9.8, 0}` (the float literal `9.8f`, read as `49/5`). -/
def defaultGravity : Vec3 := ⟨0, -(49 / 5), 0⟩

/-- `Cloth::Cloth(rows, cols, spacing)`: builds with the default field values
declared in `Cloth.h`. -/
def clothNew (rows cols : Nat) (spacing : ℚ) : Cloth :=
  buildCloth defaultGravity (1 / 100) 500 50 (1 / 10) (11 / 10) (9 / 10) 15 rows cols spacing

/-- `Cloth::reset`: full rebuild with the current field values. -/
def reset (c : Cloth) : Cloth :=
  buildCloth c.gravity c.airDamping c.springStiffness c.bendStiffness c.springDamping
    c.maxStretch c.maxCompress c.constraintIters c.rows c.cols c.spacing

/-- `Cloth::pin`. -/
def pin (c : Cloth) (row col : Nat) : Cloth :=
  { c with particles := pinAt c.particles (idx c.cols row col) }

/-- `Cloth::unpinAll`. -/
def unpinAll (c : Cloth) : Cloth :=
  { c with particles := c.particles.map fun p => { p with pinned := false } }

/-- First loop of `Cloth::applyForces`: zero the force accumulator. -/
def resetForce (p : Particle) : Particle := { p with force := 0 }

/-- Second loop of `Cloth::applyForces`: gravity and air damping on unpinned
particles. -/
def baseForce (gravity : Vec3) (airDamping : ℚ) (p : Particle) : Particle :=
  if p.pinned then p
  else { p with force := p.force + p.mass • gravity - airDamping • p.velocity }

/-- Spring-loop body of `Cloth::applyForces`: Hooke force plus axial damping,
applied with opposite signs to the unpinned endpoints. -/
def springForceStep (ps : List Particle) (s : Spring) : List Particle :=
  let pa := getP ps s.a
  let pb := getP ps s.b
  let delta := pb.position - pa.position
  let dist := vlength delta
  if dist < 1 / 1000000 then ps
  else
    let dir := (1 / dist) • delta
    let stretch := dist - s.restLength
    let springF := (s.stiffness * stretch) • dir
    let relVel := pb.velocity - pa.velocity
    let dampF := (s.damping * dot relVel dir) • dir
    let totalF := springF + dampF
    let ps1 :=
      if pa.pinned then ps
      else modifyAt ps s.a fun p => { p with force := p.force + totalF }
    if pb.pinned then ps1
    else modifyAt ps1 s.b fun p => { p with force := p.force - totalF }

/-- `Cloth::applyForces` on the particle list. -/
def applyForcesList (gravity : Vec3) (airDamping : ℚ) (springs : List Spring)
    (ps : List Particle) : List Particle :=
  springs.foldl springForceStep ((ps.map resetForce).map (baseForce gravity airDamping))

/-- `Cloth::applyForces`. -/
def applyForces (c : Cloth) : Cloth :=
  { c with particles := applyForcesList c.gravity c.airDamping c.springs c.particles }

/-- Per-particle body of `Cloth::integrate` (Störmer–Verlet step). -/
def integrateP (dt : ℚ) (p : Particle) : Particle :=
  if p.pinned then p
  else
    let accel := (1 / p.mass) • p.force
    let newPos := (2 : ℚ) • p.position - p.prevPosition + (dt * dt) • accel
    { p with velocity := (1 / (2 * dt)) • (newPos - p.prevPosition),
             prevPosition := p.position,
             position := newPos }

/-- `Cloth::integrate`. -/
def integrate (dt : ℚ) (c : Cloth) : Cloth :=
  { c with particles := c.particles.map (integrateP dt) }

/-- `glm::clamp`. -/
def clampQ (x lo hi : ℚ) : ℚ := min (max x lo) hi

/-- Per-spring body of `Cloth::satisfyConstraints`: project a violating spring
back into the allowed band, splitting the correction by pin state. -/
def constraintStep (maxCompress maxStretch : ℚ) (ps : List Particle) (s : Spring) :
    List Particle :=
  let pa := getP ps s.a
  let pb := getP ps s.b
  let delta := pb.position - pa.position
  let dist := vlength delta
  if dist < 1 / 1000000 then ps
  else
    let minLen := s.restLength * maxCompress
    let maxLen := s.restLength * maxStretch
    if dist < minLen ∨ maxLen < dist then
      let target := clampQ dist minLen maxLen
      let correction := ((dist - target) / dist) • delta
      if ¬pa.pinned ∧ ¬pb.pinned then
        modifyAt
          (modifyAt ps s.a fun p => { p with position := p.position + (1 / 2 : ℚ) • correction })
          s.b (fun p => { p with position := p.position - (1 / 2 : ℚ) • correction })
      else if ¬pa.pinned then
        modifyAt ps s.a fun p => { p with position := p.position + correction }
      else if ¬pb.pinned then
        modifyAt ps s.b fun p => { p with position := p.position - correction }
      else ps
    else ps

/-- One pass of the constraint solver over the springs in construction order. -/
def constraintPass (maxCompress maxStretch : ℚ) (springs : List Spring)
    (ps : List Particle) : List Particle :=
  springs.foldl (constraintStep maxCompress maxStretch) ps

/-- `Cloth::satisfyConstraints`: exactly `constraintIters` full passes. -/
def satisfyConstraints (c : Cloth) : Cloth :=
  { c with particles :=
      (constraintPass c.maxCompress c.maxStretch c.springs)^[c.constraintIters] c.particles }

/-- `Cloth::update`: applyForces → integrate → satisfyConstraints. -/
def update (dt : ℚ) (c : Cloth) : Cloth :=
  satisfyConstraints (integrate dt (applyForces c))

/-- Per-particle body of `Cloth::handleSphereCollision`. -/
def sphereCollideP (center : Vec3) (radius : ℚ) (p : Particle) : Particle :=
  let dir := p.position - center
  let dist := vlength dir
  if dist < radius then
    { p with position := center + (radius + 1 / 1000) • vnormalize dir }
  else p

/-- `Cloth::handleSphereCollision`. -/
def handleSphereCollision (center : Vec3) (radius : ℚ) (c : Cloth) : Cloth :=
  { c with particles := c.particles.map (sphereCollideP center radius) }

/-- The ordered pairs `(i, j)`, `i < j`, in the traversal order of the nested
loops of `Cloth::handleSelfCollisions`. -/
def pairList (n : Nat) : List (Nat × Nat) :=
  (List.range n).flatMap fun i => (List.range (n - (i + 1))).map fun k => (i, i + 1 + k)

/-- Inner-loop body of `Cloth::handleSelfCollisions`. -/
def selfCollideStep (minDist : ℚ) (ps : List Particle) (ij : Nat × Nat) : List Particle :=
  let pa := getP ps ij.1
  let pb := getP ps ij.2
  let delta := pb.position - pa.position
  let dist := vlength delta
  if dist < minDist ∧ 1 / 1000000 < dist then
    let correction := ((dist - minDist) / dist) • delta
    let ps1 :=
      if pa.pinned then ps
      else modifyAt ps ij.1 fun p => { p with position := p.position + (1 / 2 : ℚ) • correction }
    let ps2 :=
      if pb.pinned then ps1
      else modifyAt ps1 ij.2 fun p => { p with position := p.position - (1 / 2 : ℚ) • correction }
    modifyAt (modifyAt ps2 ij.1 fun p => { p with velocity := 0 }) ij.2
      fun p => { p with velocity := 0 }
  else ps

/-- `Cloth::handleSelfCollisions` (marble algorithm, all ordered pairs). -/
def handleSelfCollisions (c : Cloth) : Cloth :=
  let minDist := 2 * (c.spacing * (1 / 2))
  { c with particles := (pairList c.particles.length).foldl (selfCollideStep minDist) c.particles }

end ClothSim

namespace WindSim

open ClothSim

/-- The wind-enabled `Cloth` of the second phase (the translation unit embedded
at the end of `src/cloth.vert`): the same object plus the wind fields
`windEnabled`, `windStrength`, `windDirection` and the accumulated-time counter
`globalTime` declared in its `Cloth.h`. -/
structure WCloth where
  gravity : Vec3
  airDamping : ℚ
  springStiffness : ℚ
  bendStiffness : ℚ
  springDamping : ℚ
  maxStretch : ℚ
  maxCompress : ℚ
  constraintIters : Nat
  windEnabled : Bool
  windStrength : ℚ
  windDirection : Vec3
  globalTime : ℚ
  rows : Nat
  cols : Nat
  spacing : ℚ
  particles : List Particle
  springs : List Spring
  deriving DecidableEq

/-- Per-particle loop of the wind-enabled `Cloth::applyForces`: gravity, air
damping, and — when wind is enabled — the sinusoidal gust
`windDirection * (windStrength * sin(globalTime * 2)) * mass`.  `std::sin` is
external library code, modelled by the function parameter `sinF`. -/
def baseForceW (gravity : Vec3) (airDamping : ℚ) (windEnabled : Bool)
    (windStrength : ℚ) (windDirection : Vec3) (globalTime : ℚ) (sinF : ℚ → ℚ)
    (p : Particle) : Particle :=
  if p.pinned then p
  else
    let f1 := p.force + p.mass • gravity - airDamping • p.velocity
    let f2 :=
      if windEnabled then f1 + (windStrength * sinF (globalTime * 2) * p.mass) • windDirection
      else f1
    { p with force := f2 }

/-- Wind-enabled `Cloth::applyForces` on the particle list; the spring loop is
identical to the first phase's and is shared. -/
def applyForcesListW (sinF : ℚ → ℚ) (gravity : Vec3) (airDamping : ℚ)
    (windEnabled : Bool) (windStrength : ℚ) (windDirection : Vec3) (globalTime : ℚ)
    (springs : List Spring) (ps : List Particle) : List Particle :=
  springs.foldl springForceStep
    ((ps.map resetForce).map
      (baseForceW gravity airDamping windEnabled windStrength windDirection globalTime sinF))

/-- Wind-enabled `Cloth::applyForces` (reads the current `globalTime`). -/
def applyForcesW (sinF : ℚ → ℚ) (c : WCloth) : WCloth :=
  let ps := applyForcesListW sinF c.gravity c.airDamping c.windEnabled c.windStrength
    c.windDirection c.globalTime c.springs c.particles
  { c with particles := ps }

/-- Wind-phase `Cloth::integrate` (identical body to the first phase's). -/
def integrateW (dt : ℚ) (c : WCloth) : WCloth :=
  { c with particles := c.particles.map (integrateP dt) }

/-- Wind-phase `Cloth::satisfyConstraints` (identical body). -/
def satisfyConstraintsW (c : WCloth) : WCloth :=
  { c with particles :=
      (constraintPass c.maxCompress c.maxStretch c.springs)^[c.constraintIters] c.particles }

/-- Wind-enabled `Cloth::update`: `globalTime += deltaTime;` happens first,
then the force/integrate/constrain pipeline runs. -/
def updateW (sinF : ℚ → ℚ) (dt : ℚ) (c : WCloth) : WCloth :=
  let c1 := { c with globalTime := c.globalTime + dt }
  satisfyConstraintsW (integrateW dt (applyForcesW sinF c1))

/-- A minimal wind scenario: one unpinned particle at rest, wind enabled with
unit strength along x, no gravity, no drag, no springs, `globalTime = 0`. -/
def windCl : WCloth :=
  { gravity := 0, airDamping := 0, springStiffness := 500, bendStiffness := 50,
    springDamping := 1 / 10, maxStretch := 11 / 10, maxCompress := 9 / 10,
    constraintIters := 1, windEnabled := true, windStrength := 1,
    windDirection := ⟨1, 0, 0⟩, globalTime := 0, rows := 1, cols := 1, spacing := 1,
    particles := [{ position := 0, prevPosition := 0, velocity := 0, force := 0,
                    mass := 1, pinned := false }],
    springs := [] }

end WindSim

namespace ClothSim

/-- The endpoint index pairs of the springs generated for grid cell `(r, c)`,
in generation order (used to analyse `buildSprings`). -/
def cellPairs (rows cols r c : Nat) : List (Nat × Nat) :=
  (if c + 1 < cols then [(idx cols r c, idx cols r (c + 1))] else []) ++
  (if r + 1 < rows then [(idx cols r c, idx cols (r + 1) c)] else []) ++
  (if r + 1 < rows ∧ c + 1 < cols then [(idx cols r c, idx cols (r + 1) (c + 1))] else []) ++
  (if r + 1 < rows ∧ 1 ≤ c then [(idx cols r c, idx cols (r + 1) (c - 1))] else []) ++
  (if c + 2 < cols then [(idx cols r c, idx cols r (c + 2))] else []) ++
  (if r + 2 < rows then [(idx cols r c, idx cols (r + 2) c)] else [])

/-- `qs` preserves position, previous position and pin flag of every particle
of `ps` (the force-accumulation phase has this property). -/
def KeepsPosPin (ps qs : List Particle) : Prop :=
  qs.length = ps.length ∧ ∀ i,
    (getP qs i).position = (getP ps i).position ∧
    (getP qs i).prevPosition = (getP ps i).prevPosition ∧
    (getP qs i).pinned = (getP ps i).pinned

/-- The free-fall scenario of C1: a 1×2 cloth (spacing 1), zero stiffness and
damping, gravity (0, −9.8, 0), and both particles unpinned. -/
def freefallCloth : Cloth :=
  unpinAll (buildCloth defaultGravity 0 0 0 0 (11 / 10) (9 / 10) 15 1 2 1)

/-- Two overlapping marble-model particles (distance 1, marble diameter 2),
with nonzero velocities; `pinA` selects whether the first one is pinned. -/
def marbleCloth (pinA : Bool) : Cloth :=
  { gravity := defaultGravity, airDamping := 1 / 100, springStiffness := 500,
    bendStiffness := 50, springDamping := 1 / 10, maxStretch := 11 / 10,
    maxCompress := 9 / 10, constraintIters := 15, rows := 1, cols := 2, spacing := 2,
    particles :=
      [{ position := 0, prevPosition := 0, velocity := ⟨1, 0, 0⟩, force := 0,
         mass := 1, pinned := pinA },
       { position := ⟨1, 0, 0⟩, prevPosition := ⟨1, 0, 0⟩, velocity := ⟨-1, 0, 0⟩,
         force := 0, mass := 1, pinned := false }],
    springs := [] }

/-- A 2-particle cloth whose single spring (rest length 1) is stretched to
length 2; `pinnedFlag` pins both endpoints, `iters` sets the solver budget. -/
def tautCloth (pinnedFlag : Bool) (iters : Nat) : Cloth :=
  { gravity := defaultGravity, airDamping := 1 / 100, springStiffness := 500,
    bendStiffness := 50, springDamping := 1 / 10, maxStretch := 11 / 10,
    maxCompress := 9 / 10, constraintIters := iters, rows := 1, cols := 2, spacing := 2,
    particles :=
      [{ position := 0, prevPosition := 0, velocity := 0, force := 0, mass := 1,
         pinned := pinnedFlag },
       { position := ⟨2, 0, 0⟩, prevPosition := ⟨2, 0, 0⟩, velocity := 0, force := 0,
         mass := 1, pinned := pinnedFlag }],
    springs := [{ a := 0, b := 1, restLength := 1, stiffness := 500, damping := 1 / 10,
                  type := SpringType.Structural }] }

/-- `qs` preserves every pin flag, and the position and previous position of
every pinned particle of `ps`. -/
def PinFixed (ps qs : List Particle) : Prop :=
  qs.length = ps.length ∧ ∀ i,
    (getP qs i).pinned = (getP ps i).pinned ∧
    ((getP ps i).pinned = true →
      (getP qs i).position = (getP ps i).position ∧
      (getP qs i).prevPosition = (getP ps i).prevPosition)

end ClothSim

namespace ClothSim

@[simp] theorem Vec3.zero_x : (0 : Vec3).x = 0 := rfl

@[simp] theorem Vec3.zero_y : (0 : Vec3).y = 0 := rfl

@[simp] theorem Vec3.zero_z : (0 : Vec3).z = 0 := rfl

@[simp] theorem Vec3.add_x (u v : Vec3) : (u + v).x = u.x + v.x := rfl

@[simp] theorem Vec3.add_y (u v : Vec3) : (u + v).y = u.y + v.y := rfl

@[simp] theorem Vec3.add_z (u v : Vec3) : (u + v).z = u.z + v.z := rfl

@[simp] theorem Vec3.sub_x (u v : Vec3) : (u - v).x = u.x - v.x := rfl

@[simp] theorem Vec3.sub_y (u v : Vec3) : (u - v).y = u.y - v.y := rfl

@[simp] theorem Vec3.sub_z (u v : Vec3) : (u - v).z = u.z - v.z := rfl

@[simp] theorem Vec3.smul_x (t : ℚ) (v : Vec3) : (t • v).x = t * v.x := rfl

@[simp] theorem Vec3.smul_y (t : ℚ) (v : Vec3) : (t • v).y = t * v.y := rfl

@[simp] theorem Vec3.smul_z (t : ℚ) (v : Vec3) : (t • v).z = t * v.z := rfl

theorem isqrtFuel_bounds : ∀ fuel n, n ≤ fuel →
    isqrtFuel fuel n * isqrtFuel fuel n ≤ n ∧
    n < (isqrtFuel fuel n + 1) * (isqrtFuel fuel n + 1) := by
  intro fuel
  induction fuel with
  | zero =>
    intro n hn
    interval_cases n
    simp [isqrtFuel]
  | succ f ih =>
    intro n hn
    by_cases h2 : n < 2
    · simp only [isqrtFuel, if_pos h2]
      interval_cases n
      · omega
      · omega
    · have hrec : n / 4 ≤ f := by omega
      obtain ⟨hlo, hhi⟩ := ih (n / 4) hrec
      simp only [isqrtFuel, if_neg h2]
      generalize hG : isqrtFuel f (n / 4) = r at hlo hhi ⊢
      have e1 : 2 * r * (2 * r) = 4 * (r * r) := by ring
      have e2 : (2 * r + 1) * (2 * r + 1) = 4 * (r * r) + 4 * r + 1 := by ring
      have e3 : (2 * r + 1 + 1) * (2 * r + 1 + 1) = 4 * (r * r) + 8 * r + 4 := by ring
      have e4 : (r + 1) * (r + 1) = r * r + 2 * r + 1 := by ring
      split
      · omega
      · omega

theorem isqrt_mul_self (a : Nat) : isqrt (a * a) = a := by
  obtain ⟨hlo, hhi⟩ := isqrtFuel_bounds (a * a) (a * a) le_rfl
  set s := isqrtFuel (a * a) (a * a) with hs
  have h1 : s < a + 1 := by nlinarith
  have h2 : a < s + 1 := by nlinarith
  show s = a
  omega

theorem ratSqrt_nonneg (q : ℚ) : 0 ≤ ratSqrt q := by
  unfold ratSqrt
  positivity

theorem ratSqrt_mul_self (a : ℚ) (h : 0 ≤ a) : ratSqrt (a * a) = a := by
  have hnum : (a * a).num = a.num * a.num := Rat.mul_self_num a
  have hden : (a * a).den = a.den * a.den := Rat.mul_self_den a
  have ha : 0 ≤ a.num := Rat.num_nonneg.mpr h
  unfold ratSqrt
  rw [hnum, hden]
  have h1 : (a.num * a.num).toNat = a.num.toNat * a.num.toNat := by
    obtain ⟨m, hm⟩ := Int.eq_ofNat_of_zero_le ha
    rw [hm, ← Nat.cast_mul, Int.toNat_natCast, Int.toNat_natCast]
  rw [h1, isqrt_mul_self, isqrt_mul_self]
  have h2 : ((a.num.toNat : ℚ)) = ((a.num : ℚ)) := by
    exact_mod_cast congrArg (fun z : ℤ => (z : ℚ)) (Int.toNat_of_nonneg ha)
  rw [h2, Rat.num_div_den]

theorem normSq_nonneg (v : Vec3) : 0 ≤ normSq v := by
  simp only [normSq, dot]
  nlinarith [sq_nonneg v.x, sq_nonneg v.y, sq_nonneg v.z, sq_abs v.x]

theorem normSq_smul (t : ℚ) (v : Vec3) : normSq (t • v) = t * t * normSq v := by
  simp only [normSq, dot, Vec3.smul_x, Vec3.smul_y, Vec3.smul_z]
  ring

theorem normSq_neg_sub (u v : Vec3) : normSq (u - v) = normSq (v - u) := by
  simp only [normSq, dot, Vec3.sub_x, Vec3.sub_y, Vec3.sub_z]
  ring

theorem vlength_nonneg (v : Vec3) : 0 ≤ vlength v := ratSqrt_nonneg _

@[simp] theorem length_modifyAt (l : List α) (i : Nat) (f : α → α) :
    (modifyAt l i f).length = l.length := by
  induction l generalizing i with
  | nil => rfl
  | cons a l ih =>
    cases i with
    | zero => rfl
    | succ n => simp [modifyAt, ih]

theorem getD_modifyAt (l : List α) (i j : Nat) (f : α → α) (d : α) :
    (modifyAt l i f).getD j d =
      if j = i ∧ j < l.length then f (l.getD j d) else l.getD j d := by
  induction l generalizing i j with
  | nil => simp [modifyAt]
  | cons a l ih =>
    cases i with
    | zero =>
      cases j with
      | zero => simp [modifyAt]
      | succ m => simp [modifyAt]
    | succ n =>
      cases j with
      | zero => simp [modifyAt]
      | succ m =>
        simp only [modifyAt, List.getD_cons_succ, List.length_cons, ih]
        by_cases h : m = n ∧ m < l.length
        · simp [h.1, h.2, Nat.succ_lt_succ h.2]
        · have : ¬(m + 1 = n + 1 ∧ m + 1 < l.length + 1) := by
            intro hc
            exact h ⟨Nat.succ_injective hc.1, Nat.lt_of_succ_lt_succ hc.2⟩
          simp only [if_neg h, if_neg this]

theorem getP_modifyAt (ps : List Particle) (i j : Nat) (f : Particle → Particle) :
    getP (modifyAt ps i f) j =
      if j = i ∧ j < ps.length then f (getP ps j) else getP ps j := by
  simp only [getP]
  rw [getD_modifyAt]

theorem getP_map (f : Particle → Particle) (ps : List Particle) (i : Nat)
    (h : i < ps.length) : getP (ps.map f) i = f (getP ps i) := by
  simp only [getP]
  rw [List.getD_eq_getElem?_getD, List.getD_eq_getElem?_getD, List.getElem?_map]
  rw [List.getElem?_eq_getElem h]
  simp

theorem getP_out (ps : List Particle) (i : Nat) (h : ps.length ≤ i) :
    getP ps i = default := by
  simp only [getP]
  rw [List.getD_eq_getElem?_getD, List.getElem?_eq_none (by simpa using h)]
  rfl

theorem keepsPosPin_refl (ps : List Particle) : KeepsPosPin ps ps :=
  ⟨rfl, fun _ => ⟨rfl, rfl, rfl⟩⟩

theorem keepsPosPin_trans {ps qs rs : List Particle} (h1 : KeepsPosPin ps qs)
    (h2 : KeepsPosPin qs rs) : KeepsPosPin ps rs := by
  refine ⟨h2.1.trans h1.1, fun i => ?_⟩
  obtain ⟨a1, b1, c1⟩ := h1.2 i
  obtain ⟨a2, b2, c2⟩ := h2.2 i
  exact ⟨a2.trans a1, b2.trans b1, c2.trans c1⟩

theorem keepsPosPin_map (f : Particle → Particle)
    (hf : ∀ p, (f p).position = p.position ∧ (f p).prevPosition = p.prevPosition ∧
      (f p).pinned = p.pinned) (ps : List Particle) : KeepsPosPin ps (ps.map f) := by
  refine ⟨ps.length_map f, fun i => ?_⟩
  by_cases h : i < ps.length
  · rw [getP_map f ps i h]
    exact hf _
  · rw [getP_out ps i (Nat.le_of_not_lt h),
      getP_out (ps.map f) i (by simpa using Nat.le_of_not_lt h)]
    exact ⟨rfl, rfl, rfl⟩

theorem keepsPosPin_modifyAt (ps : List Particle) (i : Nat) (f : Particle → Particle)
    (hf : ∀ p, (f p).position = p.position ∧ (f p).prevPosition = p.prevPosition ∧
      (f p).pinned = p.pinned) : KeepsPosPin ps (modifyAt ps i f) := by
  refine ⟨length_modifyAt ps i f, fun j => ?_⟩
  rw [getP_modifyAt]
  split
  · exact hf _
  · exact ⟨rfl, rfl, rfl⟩

theorem keepsPosPin_springForceStep (ps : List Particle) (s : Spring) :
    KeepsPosPin ps (springForceStep ps s) := by
  simp only [springForceStep]
  split
  · exact keepsPosPin_refl ps
  · split
    · split
      · exact keepsPosPin_refl ps
      · exact keepsPosPin_modifyAt ps _ _ (fun _ => ⟨rfl, rfl, rfl⟩)
    · refine keepsPosPin_trans ?_ (keepsPosPin_modifyAt _ _ _ (fun _ => ⟨rfl, rfl, rfl⟩))
      split
      · exact keepsPosPin_refl ps
      · exact keepsPosPin_modifyAt ps _ _ (fun _ => ⟨rfl, rfl, rfl⟩)

theorem keepsPosPin_foldl_springs (springs : List Spring) (ps : List Particle) :
    KeepsPosPin ps (springs.foldl springForceStep ps) := by
  induction springs generalizing ps with
  | nil => exact keepsPosPin_refl ps
  | cons s rest ih =>
    rw [List.foldl_cons]
    exact keepsPosPin_trans (keepsPosPin_springForceStep ps s) (ih _)

theorem keepsPosPin_applyForcesList (g : Vec3) (a : ℚ) (springs : List Spring)
    (ps : List Particle) : KeepsPosPin ps (applyForcesList g a springs ps) := by
  unfold applyForcesList
  refine keepsPosPin_trans (keepsPosPin_map resetForce (fun p => ⟨rfl, rfl, rfl⟩) ps) ?_
  refine keepsPosPin_trans (keepsPosPin_map (baseForce g a) (fun p => ?_) _) ?_
  · unfold baseForce
    split
    · exact ⟨rfl, rfl, rfl⟩
    · exact ⟨rfl, rfl, rfl⟩
  · exact keepsPosPin_foldl_springs springs _

theorem pinFixed_refl (ps : List Particle) : PinFixed ps ps :=
  ⟨rfl, fun _ => ⟨rfl, fun _ => ⟨rfl, rfl⟩⟩⟩

theorem pinFixed_trans {ps qs rs : List Particle} (h1 : PinFixed ps qs)
    (h2 : PinFixed qs rs) : PinFixed ps rs := by
  refine ⟨h2.1.trans h1.1, fun i => ?_⟩
  obtain ⟨f1, p1⟩ := h1.2 i
  obtain ⟨f2, p2⟩ := h2.2 i
  refine ⟨f2.trans f1, fun hp => ?_⟩
  obtain ⟨x1, y1⟩ := p1 hp
  obtain ⟨x2, y2⟩ := p2 (f1.trans hp)
  exact ⟨x2.trans x1, y2.trans y1⟩

theorem pinFixed_of_keeps {ps qs : List Particle} (h : KeepsPosPin ps qs) :
    PinFixed ps qs := by
  refine ⟨h.1, fun i => ?_⟩
  obtain ⟨a, b, c⟩ := h.2 i
  exact ⟨c, fun _ => ⟨a, b⟩⟩

theorem pinFixed_integrate (dt : ℚ) (ps : List Particle) :
    PinFixed ps (ps.map (integrateP dt)) := by
  refine ⟨ps.length_map _, fun i => ?_⟩
  by_cases h : i < ps.length
  · rw [getP_map _ ps i h]
    unfold integrateP
    by_cases hp : (getP ps i).pinned = true
    · rw [if_pos hp]
      exact ⟨rfl, fun _ => ⟨rfl, rfl⟩⟩
    · rw [if_neg hp]
      exact ⟨rfl, fun hc => absurd hc hp⟩
  · rw [getP_out ps i (Nat.le_of_not_lt h),
      getP_out (ps.map _) i (by simpa using Nat.le_of_not_lt h)]
    exact ⟨rfl, fun _ => ⟨rfl, rfl⟩⟩

theorem pinFixed_modifyAt_unpinned (ps : List Particle) (i : Nat)
    (f : Particle → Particle)
    (hf : ∀ p, (f p).pinned = p.pinned ∧ (f p).prevPosition = p.prevPosition)
    (hp : (getP ps i).pinned = false) : PinFixed ps (modifyAt ps i f) := by
  refine ⟨length_modifyAt ps i f, fun j => ?_⟩
  rw [getP_modifyAt]
  split
  · next hc =>
    refine ⟨(hf _).1, fun hpin => ?_⟩
    rw [hc.1] at hpin
    rw [hp] at hpin
    exact absurd hpin (by simp)
  · exact ⟨rfl, fun _ => ⟨rfl, rfl⟩⟩

theorem pinned_getP_modifyAt (ps : List Particle) (i j : Nat) (f : Particle → Particle)
    (hf : ∀ p, (f p).pinned = p.pinned) :
    (getP (modifyAt ps i f) j).pinned = (getP ps j).pinned := by
  rw [getP_modifyAt]
  split
  · exact hf _
  · rfl

theorem pinFixed_modifyAt2_unpinned (ps : List Particle) (i j : Nat)
    (f g : Particle → Particle)
    (hf : ∀ p, (f p).pinned = p.pinned ∧ (f p).prevPosition = p.prevPosition)
    (hg : ∀ p, (g p).pinned = p.pinned ∧ (g p).prevPosition = p.prevPosition)
    (hi : (getP ps i).pinned = false) (hj : (getP ps j).pinned = false) :
    PinFixed ps (modifyAt (modifyAt ps i f) j g) := by
  refine pinFixed_trans (pinFixed_modifyAt_unpinned ps i f hf hi)
    (pinFixed_modifyAt_unpinned _ j g hg ?_)
  rw [pinned_getP_modifyAt ps i j f (fun p => (hf p).1)]
  exact hj

theorem pinFixed_constraintStep (mc ms : ℚ) (ps : List Particle) (s : Spring) :
    PinFixed ps (constraintStep mc ms ps s) := by
  simp only [constraintStep]
  split
  · exact pinFixed_refl ps
  · split
    · split
      · next hcond =>
        have ha : (getP ps s.a).pinned = false := by
          simpa using hcond.1
        have hb : (getP ps s.b).pinned = false := by
          simpa using hcond.2
        refine pinFixed_modifyAt2_unpinned ps s.a s.b _ _ ?_ ?_ ha hb
        · exact fun _ => ⟨rfl, rfl⟩
        · exact fun _ => ⟨rfl, rfl⟩
      · split
        · next hcond =>
          refine pinFixed_modifyAt_unpinned ps s.a _ ?_ (by simpa using hcond)
          exact fun _ => ⟨rfl, rfl⟩
        · split
          · next hcond =>
            refine pinFixed_modifyAt_unpinned ps s.b _ ?_ (by simpa using hcond)
            exact fun _ => ⟨rfl, rfl⟩
          · exact pinFixed_refl ps
    · exact pinFixed_refl ps

theorem pinFixed_constraintPass (mc ms : ℚ) (springs : List Spring)
    (ps : List Particle) : PinFixed ps (constraintPass mc ms springs ps) := by
  unfold constraintPass
  induction springs generalizing ps with
  | nil => exact pinFixed_refl ps
  | cons s rest ih =>
    rw [List.foldl_cons]
    exact pinFixed_trans (pinFixed_constraintStep mc ms ps s) (ih _)

theorem pinFixed_constraintIter (mc ms : ℚ) (springs : List Spring) (n : Nat)
    (ps : List Particle) : PinFixed ps ((constraintPass mc ms springs)^[n] ps) := by
  induction n generalizing ps with
  | zero => exact pinFixed_refl ps
  | succ m ih =>
    rw [Function.iterate_succ_apply]
    exact pinFixed_trans (pinFixed_constraintPass mc ms springs ps) (ih _)

theorem pinFixed_update (dt : ℚ) (c : Cloth) :
    PinFixed c.particles (update dt c).particles := by
  have h1 := pinFixed_of_keeps
    (keepsPosPin_applyForcesList c.gravity c.airDamping c.springs c.particles)
  have h2 := pinFixed_integrate dt (applyForcesList c.gravity c.airDamping c.springs c.particles)
  have h3 := pinFixed_constraintIter c.maxCompress c.maxStretch c.springs c.constraintIters
    ((applyForcesList c.gravity c.airDamping c.springs c.particles).map (integrateP dt))
  exact pinFixed_trans h1 (pinFixed_trans h2 h3)

theorem pinFixed_update_iter (dt : ℚ) (n : Nat) (c : Cloth) :
    PinFixed c.particles ((update dt)^[n] c).particles := by
  induction n generalizing c with
  | zero => exact pinFixed_refl c.particles
  | succ m ih =>
    rw [Function.iterate_succ_apply]
    exact pinFixed_trans (pinFixed_update dt c) (ih (update dt c))

/-- C6: the pin invariant — for every particle whose `pinned` flag is true, its
`position` and `prevPosition` are unchanged by any number of `update dt` calls
(and it stays pinned). -/
theorem pinned_fixed_under_updates (c : Cloth) (dt : ℚ) (n : Nat) (i : Nat)
    (h : (getP c.particles i).pinned = true) :
    (getP ((update dt)^[n] c).particles i).position = (getP c.particles i).position ∧
    (getP ((update dt)^[n] c).particles i).prevPosition = (getP c.particles i).prevPosition ∧
    (getP ((update dt)^[n] c).particles i).pinned = true := by
  obtain ⟨hflag, hpos⟩ := (pinFixed_update_iter dt n c).2 i
  obtain ⟨h1, h2⟩ := hpos h
  exact ⟨h1, h2, hflag.trans h⟩

/-- Witness for C6: in a freshly built 2×2 cloth, particle 0 is pinned, and one
`update` leaves its position and previous position unchanged. -/
theorem pinned_fixed_under_updates_witness :
    (getP (clothNew 2 2 1).particles 0).pinned = true ∧
    (getP ((update (1 / 60))^[1] (clothNew 2 2 1)).particles 0).position =
      (getP (clothNew 2 2 1).particles 0).position :=
  ⟨by decide, (pinned_fixed_under_updates (clothNew 2 2 1) (1 / 60) 1 0 (by decide)).1⟩

theorem vlength_eq_of_sq (v : Vec3) (M : ℚ) (hM : 0 ≤ M) (h : M * M = normSq v) :
    vlength v = M := by
  unfold vlength
  rw [← h, ratSqrt_mul_self M hM]

theorem vadd_sub_cancel (u w : Vec3) : (u + w) - u = w := by
  ext
  · show u.x + w.x - u.x = w.x
    ring
  · show u.y + w.y - u.y = w.y
    ring
  · show u.z + w.z - u.z = w.z
    ring

/-- C3 (amended): every particle strictly inside the sphere **and not at its
center** ends at distance exactly `radius + 1e-3` from the center, regardless
of its pinned flag; `L` is the (exact) distance from the center before the
call.  At the exact center the projection degenerates (`normalize` divides by
zero) and the particle is not placed on the surface. -/
theorem sphere_pushout (center : Vec3) (radius : ℚ) (c : Cloth) (i : Nat)
    (hi : i < c.particles.length) (L : ℚ)
    (hL : vlength ((getP c.particles i).position - center) = L)
    (hL2 : L * L = normSq ((getP c.particles i).position - center))
    (h0 : 0 < L) (hlt : L < radius) :
    vlength ((getP (handleSphereCollision center radius c).particles i).position - center) =
      radius + 1 / 1000 := by
  have hmap : (handleSphereCollision center radius c).particles =
      c.particles.map (sphereCollideP center radius) := rfl
  rw [hmap, getP_map _ _ _ hi]
  simp only [sphereCollideP, hL]
  rw [if_pos hlt]
  show vlength (center + (radius + 1 / 1000) • vnormalize ((getP c.particles i).position - center) - center) = _
  rw [vadd_sub_cancel]
  unfold vnormalize
  rw [hL]
  refine vlength_eq_of_sq _ _ (by linarith) ?_
  rw [normSq_smul, normSq_smul, ← hL2]
  have hL0 : L ≠ 0 := ne_of_gt h0
  field_simp

/-- Witness for C3: a particle at the origin, sphere center `(-1,0,0)`,
radius 2: the particle ends exactly `2 + 1/1000` from the center. -/
theorem sphere_pushout_witness :
    (0 : ℚ) < 1 ∧ (1 : ℚ) < 2 ∧
    vlength ((getP (handleSphereCollision ⟨-1, 0, 0⟩ 2 (clothNew 1 1 1)).particles 0).position -
      ⟨-1, 0, 0⟩) = 2 + 1 / 1000 :=
  ⟨by norm_num, by norm_num,
    sphere_pushout ⟨-1, 0, 0⟩ 2 (clothNew 1 1 1) 0 (by decide) 1 (by decide) (by decide)
      (by norm_num) (by norm_num)⟩

/-- C3 counterexample: a particle exactly at the sphere's center.  The
direction is the zero vector, `normalize` degenerates (division by zero;
NaN in IEEE floats, the zero vector in this exact model), and the particle's
distance from the center after the call is 0, not `r + ε = 1 + 1/1000`. -/
theorem sphere_center_counterexample :
    vlength ((getP (handleSphereCollision 0 1 (clothNew 1 1 1)).particles 0).position - 0) = 0 ∧
    (0 : ℚ) ≠ 1 + 1 / 1000 := by
  constructor
  · decide
  · norm_num

set_option maxHeartbeats 1600000 in
/-- C4 (amended): when `handleSelfCollisions` resolves an overlapping pair
(`1e-6 < L < 2·(spacing/2)`, `L` the exact pre-call distance), both velocities
are zeroed; if **both** particles are unpinned the post-call separation is
exactly `2·(spacing/2)`; if exactly one is pinned, the pinned particle absorbs
none of the correction but the unpinned one still takes only its half, so the
separation becomes `(L + 2·(spacing/2))/2`, still below the marble diameter. -/
theorem selfCollision_pair_resolution (c : Cloth) (pa pb : Particle)
    (hps : c.particles = [pa, pb]) (L : ℚ)
    (hL : vlength (pb.position - pa.position) = L)
    (hL2 : L * L = normSq (pb.position - pa.position))
    (hlow : 1 / 1000000 < L) (hhi : L < 2 * (c.spacing * (1 / 2))) :
    ((getP (handleSelfCollisions c).particles 0).velocity = 0 ∧
     (getP (handleSelfCollisions c).particles 1).velocity = 0) ∧
    (pa.pinned = false → pb.pinned = false →
      vlength ((getP (handleSelfCollisions c).particles 1).position -
        (getP (handleSelfCollisions c).particles 0).position) = 2 * (c.spacing * (1 / 2))) ∧
    (pa.pinned = true → pb.pinned = false →
      vlength ((getP (handleSelfCollisions c).particles 1).position -
        (getP (handleSelfCollisions c).particles 0).position) =
          (L + 2 * (c.spacing * (1 / 2))) / 2) := by
  have hL0 : L ≠ 0 := by
    have : (0 : ℚ) < L := lt_trans (by norm_num) hlow
    exact ne_of_gt this
  have hMpos : (0 : ℚ) < 2 * (c.spacing * (1 / 2)) := by
    have : (0 : ℚ) < L := lt_trans (by norm_num) hlow
    linarith
  have hres : (handleSelfCollisions c).particles =
      selfCollideStep (2 * (c.spacing * (1 / 2))) c.particles (0, 1) := by
    show (pairList c.particles.length).foldl (selfCollideStep (2 * (c.spacing * (1 / 2))))
      c.particles = _
    rw [hps]
    rfl
  rw [hps] at hres
  have hcond : vlength (pb.position - pa.position) < 2 * (c.spacing * (1 / 2)) ∧
      1 / 1000000 < vlength (pb.position - pa.position) := by
    rw [hL]
    exact ⟨hhi, hlow⟩
  rw [hres]
  unfold selfCollideStep
  rw [show getP [pa, pb] (0, 1).1 = pa from rfl, show getP [pa, pb] (0, 1).2 = pb from rfl]
  rw [if_pos hcond, hL]
  cases hpa : pa.pinned
  · cases hpb : pb.pinned
    · refine ⟨⟨rfl, rfl⟩, fun _ _ => ?_, fun h1 _ => Bool.noConfusion h1⟩
      show vlength
        ((pb.position - (1 / 2 : ℚ) • (((L - 2 * (c.spacing * (1 / 2))) / L) • (pb.position - pa.position))) -
         (pa.position + (1 / 2 : ℚ) • (((L - 2 * (c.spacing * (1 / 2))) / L) • (pb.position - pa.position)))) =
        2 * (c.spacing * (1 / 2))
      have hdelta :
          (pb.position - (1 / 2 : ℚ) • (((L - 2 * (c.spacing * (1 / 2))) / L) • (pb.position - pa.position))) -
          (pa.position + (1 / 2 : ℚ) • (((L - 2 * (c.spacing * (1 / 2))) / L) • (pb.position - pa.position))) =
          ((2 * (c.spacing * (1 / 2))) / L) • (pb.position - pa.position) := by
        ext <;> simp <;> (field_simp; ring)
      rw [hdelta]
      refine vlength_eq_of_sq _ _ (le_of_lt hMpos) ?_
      rw [normSq_smul, ← hL2]
      field_simp
    · exact ⟨⟨rfl, rfl⟩, fun _ h2 => Bool.noConfusion h2,
        fun h1 _ => Bool.noConfusion h1⟩
  · cases hpb : pb.pinned
    · refine ⟨⟨rfl, rfl⟩, fun h1 _ => Bool.noConfusion h1, fun _ _ => ?_⟩
      show vlength
        ((pb.position - (1 / 2 : ℚ) • (((L - 2 * (c.spacing * (1 / 2))) / L) • (pb.position - pa.position))) -
         pa.position) = (L + 2 * (c.spacing * (1 / 2))) / 2
      have hdelta :
          (pb.position - (1 / 2 : ℚ) • (((L - 2 * (c.spacing * (1 / 2))) / L) • (pb.position - pa.position))) -
          pa.position =
          (((L + 2 * (c.spacing * (1 / 2))) / (2 * L)) • (pb.position - pa.position)) := by
        ext <;> simp <;> (field_simp; ring)
      rw [hdelta]
      have hnn : (0 : ℚ) ≤ (L + 2 * (c.spacing * (1 / 2))) / 2 := by
        have : (0 : ℚ) < L := lt_trans (by norm_num) hlow
        positivity
      refine vlength_eq_of_sq _ _ hnn ?_
      rw [normSq_smul, ← hL2]
      field_simp
      ring
    · exact ⟨⟨rfl, rfl⟩, fun h1 _ => Bool.noConfusion h1,
        fun _ h2 => Bool.noConfusion h2⟩

/-- Witness for C4: two unpinned overlapping marbles end exactly one marble
diameter apart with both velocities zeroed. -/
theorem selfCollision_pair_resolution_witness :
    ((getP (handleSelfCollisions (marbleCloth false)).particles 0).velocity = 0 ∧
     (getP (handleSelfCollisions (marbleCloth false)).particles 1).velocity = 0) ∧
    vlength ((getP (handleSelfCollisions (marbleCloth false)).particles 1).position -
      (getP (handleSelfCollisions (marbleCloth false)).particles 0).position) =
      2 * ((marbleCloth false).spacing * (1 / 2)) := by
  obtain ⟨hv, himp, _⟩ := selfCollision_pair_resolution (marbleCloth false) _ _ rfl 1
    (by decide) (by decide) (by decide) (by decide)
  exact ⟨hv, himp rfl rfl⟩

/-- C4 counterexample: with the first marble pinned, the unpinned partner still
takes only half of the correction, so the pair ends `3/2` apart instead of the
claimed full marble diameter `2`. -/
theorem selfCollision_pinned_counterexample :
    vlength ((getP (handleSelfCollisions (marbleCloth true)).particles 1).position -
      (getP (handleSelfCollisions (marbleCloth true)).particles 0).position) = 3 / 2 ∧
    (3 / 2 : ℚ) ≠ 2 * ((marbleCloth true).spacing * (1 / 2)) := by
  constructor
  · decide
  · decide

theorem constraintStep_skip (mc ms : ℚ) (ps : List Particle) (s : Spring) (L : ℚ)
    (hL : vlength ((getP ps s.b).position - (getP ps s.a).position) = L)
    (h1 : ¬L < 1 / 1000000)
    (h2 : ¬(L < s.restLength * mc ∨ s.restLength * ms < L)) :
    constraintStep mc ms ps s = ps := by
  simp only [constraintStep, hL]
  rw [if_neg h1, if_neg h2]

theorem getP_modifyAt_self (ps : List Particle) (i : Nat) (f : Particle → Particle)
    (h : i < ps.length) : getP (modifyAt ps i f) i = f (getP ps i) := by
  rw [getP_modifyAt, if_pos ⟨rfl, h⟩]

theorem getP_modifyAt_other (ps : List Particle) (i j : Nat) (f : Particle → Particle)
    (h : j ≠ i) : getP (modifyAt ps i f) j = getP ps j := by
  rw [getP_modifyAt, if_neg (fun hc => h hc.1)]

theorem normSq_split_half (u v : Vec3) (L M : ℚ) (hL2 : L * L = normSq (v - u))
    (hL0 : L ≠ 0) :
    normSq ((v - (1 / 2 : ℚ) • (((L - M) / L) • (v - u))) -
      (u + (1 / 2 : ℚ) • (((L - M) / L) • (v - u)))) = M * M := by
  have h : (v - (1 / 2 : ℚ) • (((L - M) / L) • (v - u))) -
      (u + (1 / 2 : ℚ) • (((L - M) / L) • (v - u))) = (M / L) • (v - u) := by
    ext <;> simp <;> (field_simp; ring)
  rw [h, normSq_smul, ← hL2]
  field_simp

theorem normSq_full_a (u v : Vec3) (L M : ℚ) (hL2 : L * L = normSq (v - u))
    (hL0 : L ≠ 0) :
    normSq (v - (u + (((L - M) / L) • (v - u)))) = M * M := by
  have h : v - (u + (((L - M) / L) • (v - u))) = (M / L) • (v - u) := by
    ext <;> simp <;> (field_simp; ring)
  rw [h, normSq_smul, ← hL2]
  field_simp

theorem normSq_full_b (u v : Vec3) (L M : ℚ) (hL2 : L * L = normSq (v - u))
    (hL0 : L ≠ 0) :
    normSq ((v - (((L - M) / L) • (v - u))) - u) = M * M := by
  have h : (v - (((L - M) / L) • (v - u))) - u = (M / L) • (v - u) := by
    ext <;> simp <;> (field_simp; ring)
  rw [h, normSq_smul, ← hL2]
  field_simp

theorem clampQ_le (x lo hi : ℚ) : clampQ x lo hi ≤ hi := min_le_right _ _

theorem le_clampQ (x lo hi : ℚ) (h : lo ≤ hi) : lo ≤ clampQ x lo hi :=
  le_min (le_max_right _ _) h

theorem clampQ_of_mem (x lo hi : ℚ) (h1 : lo ≤ x) (h2 : x ≤ hi) : clampQ x lo hi = x := by
  unfold clampQ
  rw [max_eq_left h1, min_eq_left h2]

/-- One projection step of the constraint solver leaves the processed spring's
squared length exactly at the square of `clamp(dist, minLen, maxLen)`, for a
non-degenerate spring with at least one unpinned endpoint. -/
theorem constraintStep_post_normSq (mc ms : ℚ) (ps : List Particle) (s : Spring) (L : ℚ)
    (hL : vlength ((getP ps s.b).position - (getP ps s.a).position) = L)
    (hL2 : L * L = normSq ((getP ps s.b).position - (getP ps s.a).position))
    (hnd : ¬L < 1 / 1000000)
    (hpin : (getP ps s.a).pinned = false ∨ (getP ps s.b).pinned = false)
    (ha : s.a < ps.length) (hb : s.b < ps.length) (hab : s.a ≠ s.b) :
    normSq ((getP (constraintStep mc ms ps s) s.b).position -
      (getP (constraintStep mc ms ps s) s.a).position) =
      clampQ L (s.restLength * mc) (s.restLength * ms) *
      clampQ L (s.restLength * mc) (s.restLength * ms) := by
  have hL0 : L ≠ 0 := by
    have : (0 : ℚ) < L := lt_of_lt_of_le (by norm_num) (not_lt.mp hnd)
    exact ne_of_gt this
  unfold constraintStep
  dsimp only
  rw [hL, if_neg hnd]
  by_cases hviol : L < s.restLength * mc ∨ s.restLength * ms < L
  · rw [if_pos hviol]
    cases hpa : (getP ps s.a).pinned
    · cases hpb : (getP ps s.b).pinned
      · rw [if_pos (⟨by simp, by simp⟩ : ¬false = true ∧ ¬false = true)]
        rw [getP_modifyAt_self _ _ _ (by rw [length_modifyAt]; exact hb),
            getP_modifyAt_other _ _ _ _ (fun hc => hab hc.symm),
            getP_modifyAt_other _ _ _ _ hab,
            getP_modifyAt_self _ _ _ ha]
        exact normSq_split_half _ _ L _ hL2 hL0
      · rw [if_neg (by simp : ¬(¬false = true ∧ ¬true = true)), if_pos (by simp : ¬false = true)]
        rw [getP_modifyAt_other _ _ _ _ (fun hc => hab hc.symm),
            getP_modifyAt_self _ _ _ ha]
        exact normSq_full_a _ _ L _ hL2 hL0
    · cases hpb : (getP ps s.b).pinned
      · rw [if_neg (by simp : ¬(¬true = true ∧ ¬false = true)), if_neg (by simp : ¬¬true = true),
            if_pos (by simp : ¬false = true)]
        rw [getP_modifyAt_self _ _ _ hb,
            getP_modifyAt_other _ _ _ _ hab]
        exact normSq_full_b _ _ L _ hL2 hL0
      · rcases hpin with h | h
        · rw [hpa] at h
          cases h
        · rw [hpb] at h
          cases h
  · rw [if_neg hviol]
    push_neg at hviol
    rw [clampQ_of_mem L _ _ hviol.1 hviol.2, ← hL2]

theorem vlength_sub_comm (u v : Vec3) : vlength (u - v) = vlength (v - u) := by
  unfold vlength
  rw [normSq_neg_sub]

theorem mem_ite_singleton {α : Type} {x y : α} {P : Prop} [Decidable P]
    (h : x ∈ (if P then [y] else [])) : x = y := by
  split at h
  · exact List.mem_singleton.mp h
  · cases h

/-- Every generated spring is some `addSpring` over the same particle list. -/
theorem mem_buildSprings (ps : List Particle) (rows cols : Nat) (kS kB d : ℚ)
    (sp : Spring) (hsp : sp ∈ buildSprings ps rows cols kS kB d) :
    ∃ a b stiff ty, sp = addSpring ps d a b stiff ty := by
  simp only [buildSprings, List.mem_flatMap, List.mem_range] at hsp
  obtain ⟨r, hr, hsp⟩ := hsp
  obtain ⟨c, hc, hsp⟩ := hsp
  rcases List.mem_append.mp hsp with hsp | h
  swap
  · exact ⟨_, _, _, _, mem_ite_singleton h⟩
  rcases List.mem_append.mp hsp with hsp | h
  swap
  · exact ⟨_, _, _, _, mem_ite_singleton h⟩
  rcases List.mem_append.mp hsp with hsp | h
  swap
  · exact ⟨_, _, _, _, mem_ite_singleton h⟩
  rcases List.mem_append.mp hsp with hsp | h
  swap
  · exact ⟨_, _, _, _, mem_ite_singleton h⟩
  rcases List.mem_append.mp hsp with hsp | h
  swap
  · exact ⟨_, _, _, _, mem_ite_singleton h⟩
  exact ⟨_, _, _, _, mem_ite_singleton hsp⟩

/-- C8: rest-length invariant — immediately after a build (the constructor and
`reset` both run this build routine), every spring's stored `restLength` equals
the distance between its endpoints, because `addSpring` computed it from the
endpoint positions at creation time and positions do not change during
`buildSprings`. -/
theorem rest_length_invariant (g : Vec3) (ad kS kB d ms mc : ℚ)
    (it rows cols : Nat) (spacing : ℚ) (sp : Spring)
    (hsp : sp ∈ (buildCloth g ad kS kB d ms mc it rows cols spacing).springs) :
    vlength ((getP (buildCloth g ad kS kB d ms mc it rows cols spacing).particles sp.b).position -
      (getP (buildCloth g ad kS kB d ms mc it rows cols spacing).particles sp.a).position) =
      sp.restLength := by
  obtain ⟨a, b, stiff, ty, hab⟩ := mem_buildSprings _ rows cols kS kB d sp hsp
  subst hab
  show vlength ((getP (buildParticles rows cols spacing) b).position -
    (getP (buildParticles rows cols spacing) a).position) = _
  exact vlength_sub_comm _ _

/-- Witness for C8: the first spring of a fresh 2×2 cloth. -/
theorem rest_length_invariant_witness :
    ((clothNew 2 2 1).springs.getD 0 default ∈ (clothNew 2 2 1).springs) ∧
    vlength ((getP (clothNew 2 2 1).particles ((clothNew 2 2 1).springs.getD 0 default).b).position -
      (getP (clothNew 2 2 1).particles ((clothNew 2 2 1).springs.getD 0 default).a).position) =
      ((clothNew 2 2 1).springs.getD 0 default).restLength :=
  ⟨by decide, rest_length_invariant defaultGravity (1 / 100) 500 50 (1 / 10) (11 / 10) (9 / 10)
    15 2 2 1 _ (by decide)⟩

theorem length_flatMap_const {α : Type} (f : Nat → List α) (k n : Nat)
    (hf : ∀ i, (f i).length = k) :
    ((List.range n).flatMap f).length = n * k := by
  induction n with
  | zero => simp
  | succ m ih =>
    rw [List.range_succ, List.flatMap_append]
    simp [ih, hf, Nat.succ_mul]

theorem getD_flatMap_const {α : Type} (f : Nat → List α) (k n r c : Nat) (d : α)
    (hf : ∀ i, (f i).length = k) (hr : r < n) (hc : c < k) :
    ((List.range n).flatMap f).getD (r * k + c) d = (f r).getD c d := by
  induction n with
  | zero => omega
  | succ m ih =>
    rw [List.range_succ, List.flatMap_append]
    by_cases h : r < m
    · rw [List.getD_eq_getElem?_getD, List.getElem?_append_left, ← List.getD_eq_getElem?_getD]
      · exact ih h
      · rw [length_flatMap_const f k m hf]
        have e1 : (r + 1) * k = r * k + k := by ring
        have e2 : (r + 1) * k ≤ m * k := Nat.mul_le_mul_right k h
        omega
    · have hrm : r = m := by omega
      subst hrm
      have hpre : ((List.range r).flatMap f).length = r * k := length_flatMap_const f k r hf
      rw [List.getD_eq_getElem?_getD, List.getElem?_append_right (by omega),
        ← List.getD_eq_getElem?_getD, hpre]
      simp only [List.flatMap_cons, List.flatMap_nil, List.append_nil]
      congr 1
      omega

theorem idx_lt (rows cols r c : Nat) (hr : r < rows) (hc : c < cols) :
    idx cols r c < rows * cols := by
  unfold idx
  have e1 : (r + 1) * cols = r * cols + cols := by ring
  have e2 : (r + 1) * cols ≤ rows * cols := Nat.mul_le_mul_right cols hr
  omega

theorem idx_inj (cols r c r' c' : Nat) (hc : c < cols) (hc' : c' < cols)
    (h : idx cols r c = idx cols r' c') : r = r' ∧ c = c' := by
  unfold idx at h
  have hcols : 0 < cols := by omega
  have hdiv : ∀ a b : Nat, b < cols → (a * cols + b) / cols = a := by
    intro a b hb
    have e : a * cols + b = b + cols * a := by ring
    rw [e, Nat.add_mul_div_left b a hcols, Nat.div_eq_of_lt hb, Nat.zero_add]
  have hmod : ∀ a b : Nat, b < cols → (a * cols + b) % cols = b := by
    intro a b hb
    have e : a * cols + b = b + cols * a := by ring
    rw [e, Nat.add_mul_mod_self_left, Nat.mod_eq_of_lt hb]
  constructor
  · rw [← hdiv r c hc, ← hdiv r' c' hc', h]
  · rw [← hmod r c hc, ← hmod r' c' hc', h]

theorem rawParticles_length (rows cols : Nat) (spacing : ℚ) :
    (rawParticles rows cols spacing).length = rows * cols := by
  unfold rawParticles
  exact length_flatMap_const _ cols rows (fun i => by simp)

theorem buildParticles_length (rows cols : Nat) (spacing : ℚ) :
    (buildParticles rows cols spacing).length = rows * cols := by
  unfold buildParticles pinAt
  rw [length_modifyAt, length_modifyAt]
  exact rawParticles_length rows cols spacing

theorem rawParticles_getP (rows cols r c : Nat) (spacing : ℚ) (hr : r < rows)
    (hc : c < cols) :
    getP (rawParticles rows cols spacing) (idx cols r c) =
      { position := ⟨-((cols : ℚ) - 1) * spacing * (1 / 2) + (c : ℚ) * spacing,
                     ((rows : ℚ) - 1) * spacing - (r : ℚ) * spacing, 0⟩,
        prevPosition := ⟨-((cols : ℚ) - 1) * spacing * (1 / 2) + (c : ℚ) * spacing,
                         ((rows : ℚ) - 1) * spacing - (r : ℚ) * spacing, 0⟩,
        velocity := 0, force := 0, mass := 1, pinned := false } := by
  unfold rawParticles getP idx
  rw [getD_flatMap_const _ cols rows r c _ (fun i => by simp) hr hc]
  rw [List.getD_eq_getElem?_getD, List.getElem?_map, List.getElem?_range hc]
  rfl

/-- C9: topology-builder contract — construction produces `rows·cols`
particles; particle `(r, c)` sits at index `r·cols + c`, at the stated grid
position (x symmetric around 0, top row at height `(rows−1)·spacing`, z = 0),
at rest with unit mass, and is pinned exactly when it is one of the two
top-row corners. -/
theorem topology_builder_contract (rows cols : Nat) (spacing : ℚ)
    (hrows : 1 ≤ rows) (hcols : 1 ≤ cols) :
    (clothNew rows cols spacing).particles.length = rows * cols ∧
    ∀ r c, r < rows → c < cols →
      (getP (clothNew rows cols spacing).particles (idx cols r c)).position =
        ⟨-((cols : ℚ) - 1) * spacing * (1 / 2) + (c : ℚ) * spacing,
         ((rows : ℚ) - 1) * spacing - (r : ℚ) * spacing, 0⟩ ∧
      (getP (clothNew rows cols spacing).particles (idx cols r c)).prevPosition =
        (getP (clothNew rows cols spacing).particles (idx cols r c)).position ∧
      (getP (clothNew rows cols spacing).particles (idx cols r c)).velocity = 0 ∧
      (getP (clothNew rows cols spacing).particles (idx cols r c)).force = 0 ∧
      (getP (clothNew rows cols spacing).particles (idx cols r c)).mass = 1 ∧
      ((getP (clothNew rows cols spacing).particles (idx cols r c)).pinned = true ↔
        r = 0 ∧ (c = 0 ∨ c = cols - 1)) := by
  have hbp : (clothNew rows cols spacing).particles = buildParticles rows cols spacing := rfl
  rw [hbp]
  refine ⟨buildParticles_length rows cols spacing, fun r c hr hc => ?_⟩
  have hraw := rawParticles_getP rows cols r c spacing hr hc
  have hrawlen := rawParticles_length rows cols spacing
  have hjr : idx cols r c < rows * cols := idx_lt rows cols r c hr hc
  have hc0 : (0 : Nat) < cols := hcols
  have hI0 : idx cols r c = idx cols 0 0 ↔ (r = 0 ∧ c = 0) := by
    constructor
    · intro h
      exact idx_inj cols r c 0 0 hc hc0 h
    · rintro ⟨h1, h2⟩
      rw [h1, h2]
  have hI1 : idx cols r c = idx cols 0 (cols - 1) ↔ (r = 0 ∧ c = cols - 1) := by
    constructor
    · intro h
      exact idx_inj cols r c 0 (cols - 1) hc (by omega) h
    · rintro ⟨h1, h2⟩
      rw [h1, h2]
  unfold buildParticles pinAt
  rw [getP_modifyAt, getP_modifyAt, length_modifyAt, hrawlen]
  split_ifs with h1 h2 h3 <;> rw [hraw] <;>
    refine ⟨rfl, rfl, rfl, rfl, rfl, ?_⟩
  · have hx := hI1.mp h1.1
    simp [hx.1, hx.2]
  · have hx := hI1.mp h1.1
    simp [hx.1, hx.2]
  · have hx := hI0.mp h3.1
    simp [hx.1, hx.2]
  · constructor
    · intro hfalse
      cases hfalse
    · rintro ⟨h0, hcc | hcc⟩
      · exact absurd ⟨hI0.mpr ⟨h0, hcc⟩, hjr⟩ h3
      · exact absurd ⟨hI1.mpr ⟨h0, hcc⟩, hjr⟩ h1

/-- Witness for C9: a 2×3 grid — particle (0,2) is the pinned top-right
corner at position (1, 1, 0). -/
theorem topology_builder_contract_witness :
    (clothNew 2 3 1).particles.length = 2 * 3 ∧
    (getP (clothNew 2 3 1).particles (idx 3 0 2)).position =
      ⟨-((3 : ℚ) - 1) * 1 * (1 / 2) + (2 : ℚ) * 1, ((2 : ℚ) - 1) * 1 - (0 : ℚ) * 1, 0⟩ ∧
    (getP (clothNew 2 3 1).particles (idx 3 0 2)).pinned = true := by
  obtain ⟨hlen, hall⟩ := topology_builder_contract 2 3 1 (by norm_num) (by norm_num)
  obtain ⟨hpos, _, _, _, _, hpin⟩ := hall 0 2 (by norm_num) (by norm_num)
  exact ⟨hlen, hpos, hpin.mpr ⟨rfl, Or.inr rfl⟩⟩

theorem mem_ite_singleton' {α : Type} {x y : α} {P : Prop} [Decidable P]
    (h : x ∈ (if P then [y] else [])) : P ∧ x = y := by
  split at h
  · exact ⟨by assumption, List.mem_singleton.mp h⟩
  · cases h

/-- Guard-retaining characterisation of the generated springs' endpoints. -/
theorem mem_buildSprings_cases (ps : List Particle) (rows cols : Nat) (kS kB d : ℚ)
    (sp : Spring) (hsp : sp ∈ buildSprings ps rows cols kS kB d) :
    ∃ r c, r < rows ∧ c < cols ∧
      ((c + 1 < cols ∧ sp.a = idx cols r c ∧ sp.b = idx cols r (c + 1)) ∨
       (r + 1 < rows ∧ sp.a = idx cols r c ∧ sp.b = idx cols (r + 1) c) ∨
       (r + 1 < rows ∧ c + 1 < cols ∧ sp.a = idx cols r c ∧ sp.b = idx cols (r + 1) (c + 1)) ∨
       (r + 1 < rows ∧ 1 ≤ c ∧ sp.a = idx cols r c ∧ sp.b = idx cols (r + 1) (c - 1)) ∨
       (c + 2 < cols ∧ sp.a = idx cols r c ∧ sp.b = idx cols r (c + 2)) ∨
       (r + 2 < rows ∧ sp.a = idx cols r c ∧ sp.b = idx cols (r + 2) c)) := by
  simp only [buildSprings, List.mem_flatMap, List.mem_range] at hsp
  obtain ⟨r, hr, hsp⟩ := hsp
  obtain ⟨c, hc, hsp⟩ := hsp
  refine ⟨r, c, hr, hc, ?_⟩
  rcases List.mem_append.mp hsp with hsp | h
  swap
  · obtain ⟨hg, heq⟩ := mem_ite_singleton' h
    subst heq
    exact Or.inr (Or.inr (Or.inr (Or.inr (Or.inr ⟨hg, rfl, rfl⟩))))
  rcases List.mem_append.mp hsp with hsp | h
  swap
  · obtain ⟨hg, heq⟩ := mem_ite_singleton' h
    subst heq
    exact Or.inr (Or.inr (Or.inr (Or.inr (Or.inl ⟨hg, rfl, rfl⟩))))
  rcases List.mem_append.mp hsp with hsp | h
  swap
  · obtain ⟨hg, heq⟩ := mem_ite_singleton' h
    subst heq
    exact Or.inr (Or.inr (Or.inr (Or.inl ⟨hg.1, hg.2, rfl, rfl⟩)))
  rcases List.mem_append.mp hsp with hsp | h
  swap
  · obtain ⟨hg, heq⟩ := mem_ite_singleton' h
    subst heq
    exact Or.inr (Or.inr (Or.inl ⟨hg.1, hg.2, rfl, rfl⟩))
  rcases List.mem_append.mp hsp with hsp | h
  swap
  · obtain ⟨hg, heq⟩ := mem_ite_singleton' h
    subst heq
    exact Or.inr (Or.inl ⟨hg, rfl, rfl⟩)
  obtain ⟨hg, heq⟩ := mem_ite_singleton' hsp
  subst heq
  exact Or.inl ⟨hg, rfl, rfl⟩

theorem buildSprings_a_lt_b (ps : List Particle) (rows cols : Nat) (kS kB d : ℚ) :
    ∀ sp ∈ buildSprings ps rows cols kS kB d, sp.a < sp.b := by
  intro sp hsp
  obtain ⟨r, c, hr, hc, hcase⟩ := mem_buildSprings_cases ps rows cols kS kB d sp hsp
  have e1 : (r + 1) * cols = r * cols + cols := by ring
  have e2 : (r + 2) * cols = r * cols + 2 * cols := by ring
  unfold idx at hcase
  rcases hcase with ⟨hg, ha, hb⟩ | ⟨hg, ha, hb⟩ | ⟨hg1, hg2, ha, hb⟩ |
    ⟨hg1, hg2, ha, hb⟩ | ⟨hg, ha, hb⟩ | ⟨hg, ha, hb⟩ <;> omega

theorem buildSprings_pairs_eq (ps : List Particle) (rows cols : Nat) (kS kB d : ℚ) :
    (buildSprings ps rows cols kS kB d).map (fun sp => (sp.a, sp.b)) =
      (List.range rows).flatMap fun r =>
        (List.range cols).flatMap fun c => cellPairs rows cols r c := by
  unfold buildSprings cellPairs
  rw [List.map_flatMap]
  simp only [List.map_flatMap, List.map_append,
    apply_ite (List.map (fun sp : Spring => (sp.a, sp.b))), List.map_cons, List.map_nil]
  rfl

theorem mem_cellPairs_fst (rows cols r c : Nat) (x : Nat × Nat)
    (hx : x ∈ cellPairs rows cols r c) : x.1 = idx cols r c := by
  unfold cellPairs at hx
  rcases List.mem_append.mp hx with hx | h
  swap
  · rw [(mem_ite_singleton' h).2]
  rcases List.mem_append.mp hx with hx | h
  swap
  · rw [(mem_ite_singleton' h).2]
  rcases List.mem_append.mp hx with hx | h
  swap
  · rw [(mem_ite_singleton' h).2]
  rcases List.mem_append.mp hx with hx | h
  swap
  · rw [(mem_ite_singleton' h).2]
  rcases List.mem_append.mp hx with hx | h
  swap
  · rw [(mem_ite_singleton' h).2]
  rw [(mem_ite_singleton' hx).2]

theorem cellPairs_nodup (rows cols r c : Nat) (hc : c < cols) :
    (cellPairs rows cols r c).Nodup := by
  have e1 : (r + 1) * cols = r * cols + cols := by ring
  have e2 : (r + 2) * cols = r * cols + 2 * cols := by ring
  unfold cellPairs idx
  split_ifs <;> simp [List.nodup_cons, Prod.mk.injEq] <;> omega

theorem buildSprings_pairs_nodup (ps : List Particle) (rows cols : Nat) (kS kB d : ℚ) :
    ((buildSprings ps rows cols kS kB d).map (fun sp => (sp.a, sp.b))).Nodup := by
  rw [buildSprings_pairs_eq]
  rw [List.nodup_flatMap]
  constructor
  · intro r hr
    rw [List.nodup_flatMap]
    constructor
    · intro c hc
      exact cellPairs_nodup rows cols r c (List.mem_range.mp hc)
    · refine List.Pairwise.imp_of_mem ?_ (List.nodup_range cols)
      intro c1 c2 h1 h2 hne x hx1 hx2
      have f1 := mem_cellPairs_fst rows cols r c1 x hx1
      have f2 := mem_cellPairs_fst rows cols r c2 x hx2
      exact hne (idx_inj cols r c1 r c2 (List.mem_range.mp h1) (List.mem_range.mp h2)
        (f1 ▸ f2 ▸ rfl)).2
  · refine List.Pairwise.imp_of_mem ?_ (List.nodup_range rows)
    intro r1 r2 h1 h2 hne x hx1 hx2
    obtain ⟨c1, hc1, hx1⟩ := List.mem_flatMap.mp hx1
    obtain ⟨c2, hc2, hx2⟩ := List.mem_flatMap.mp hx2
    have f1 := mem_cellPairs_fst rows cols r1 c1 x hx1
    have f2 := mem_cellPairs_fst rows cols r2 c2 x hx2
    exact hne (idx_inj cols r1 c1 r2 c2 (List.mem_range.mp hc1) (List.mem_range.mp hc2)
      (f1 ▸ f2 ▸ rfl)).1

/-- C10: the spring generator creates no self-loop and no duplicate springs —
every spring has `a < b` (hence `a ≠ b`), the ordered endpoint pairs are
pairwise distinct, and no unordered pair appears twice (in either
orientation). -/
theorem springs_no_self_no_dup (rows cols : Nat) (spacing : ℚ) :
    (∀ sp ∈ (clothNew rows cols spacing).springs, sp.a ≠ sp.b) ∧
    (∀ sp ∈ (clothNew rows cols spacing).springs, sp.a < sp.b) ∧
    ((clothNew rows cols spacing).springs.map (fun sp => (sp.a, sp.b))).Nodup ∧
    (clothNew rows cols spacing).springs.Pairwise
      (fun s1 s2 => ¬(s1.a = s2.a ∧ s1.b = s2.b) ∧ ¬(s1.a = s2.b ∧ s1.b = s2.a)) := by
  have hspr : (clothNew rows cols spacing).springs =
      buildSprings (buildParticles rows cols spacing) rows cols 500 50 (1 / 10) := rfl
  have hlt := buildSprings_a_lt_b (buildParticles rows cols spacing) rows cols 500 50 (1 / 10)
  have hnd := buildSprings_pairs_nodup (buildParticles rows cols spacing) rows cols 500 50 (1 / 10)
  rw [hspr]
  refine ⟨fun sp hsp => Nat.ne_of_lt (hlt sp hsp), hlt, hnd, ?_⟩
  have hpw : (buildSprings (buildParticles rows cols spacing) rows cols 500 50 (1 / 10)).Pairwise
      (fun s1 s2 => (s1.a, s1.b) ≠ (s2.a, s2.b)) := by
    have := hnd
    unfold List.Nodup at this
    exact List.pairwise_map.mp this
  refine List.Pairwise.imp_of_mem ?_ hpw
  intro s1 s2 h1 h2 hne
  constructor
  · rintro ⟨ha, hb⟩
    exact hne (by rw [ha, hb])
  · rintro ⟨hab, hba⟩
    have o1 := hlt s1 h1
    have o2 := hlt s2 h2
    omega

/-- C5 (amended): after `satisfyConstraints` (which runs exactly
`constraintIters` passes over the springs in construction order), every spring
`k` that, at its final processing (state `mid` of the last pass), is
non-degenerate and has at least one unpinned endpoint, and whose endpoints are
not moved after that final processing (no externally reintroduced violation),
has its Euclidean length `dEnd` within
`[restLength·maxCompress, restLength·maxStretch]`.  Springs with both
endpoints pinned, or degenerate length, are skipped and carry no guarantee. -/
theorem constraint_bound_after_solve (c : Cloth) (k : Nat) (s : Spring)
    (hs : c.springs.getD k default = s) (hk : k < c.springs.length)
    (hiters : 1 ≤ c.constraintIters) (mid : List Particle)
    (hmid : mid = (c.springs.take k).foldl (constraintStep c.maxCompress c.maxStretch)
      ((constraintPass c.maxCompress c.maxStretch c.springs)^[c.constraintIters - 1]
        c.particles))
    (L : ℚ)
    (hL : vlength ((getP mid s.b).position - (getP mid s.a).position) = L)
    (hL2 : L * L = normSq ((getP mid s.b).position - (getP mid s.a).position))
    (hnd : ¬L < 1 / 1000000)
    (hpin : (getP mid s.a).pinned = false ∨ (getP mid s.b).pinned = false)
    (ha : s.a < mid.length) (hb : s.b < mid.length) (hab : s.a ≠ s.b)
    (hrl : 0 ≤ s.restLength * c.maxCompress)
    (hmm : s.restLength * c.maxCompress ≤ s.restLength * c.maxStretch)
    (hkeep :
      (getP (satisfyConstraints c).particles s.a).position =
        (getP (constraintStep c.maxCompress c.maxStretch mid s) s.a).position ∧
      (getP (satisfyConstraints c).particles s.b).position =
        (getP (constraintStep c.maxCompress c.maxStretch mid s) s.b).position)
    (dEnd : ℚ) (hd0 : 0 ≤ dEnd)
    (hdEnd : dEnd * dEnd = normSq ((getP (satisfyConstraints c).particles s.b).position -
      (getP (satisfyConstraints c).particles s.a).position)) :
    s.restLength * c.maxCompress ≤ dEnd ∧ dEnd ≤ s.restLength * c.maxStretch := by
  have hpost := constraintStep_post_normSq c.maxCompress c.maxStretch mid s L hL hL2
    hnd hpin ha hb hab
  have hMlo : s.restLength * c.maxCompress ≤
      clampQ L (s.restLength * c.maxCompress) (s.restLength * c.maxStretch) :=
    le_clampQ _ _ _ hmm
  have hMhi : clampQ L (s.restLength * c.maxCompress) (s.restLength * c.maxStretch) ≤
      s.restLength * c.maxStretch := clampQ_le _ _ _
  have hM0 : 0 ≤ clampQ L (s.restLength * c.maxCompress) (s.restLength * c.maxStretch) :=
    le_trans hrl hMlo
  have heq : dEnd * dEnd =
      clampQ L (s.restLength * c.maxCompress) (s.restLength * c.maxStretch) *
      clampQ L (s.restLength * c.maxCompress) (s.restLength * c.maxStretch) := by
    rw [hdEnd, hkeep.1, hkeep.2]
    exact hpost
  have hle : dEnd ≤ clampQ L (s.restLength * c.maxCompress) (s.restLength * c.maxStretch) := by
    nlinarith [heq, hd0, hM0]
  have hge : clampQ L (s.restLength * c.maxCompress) (s.restLength * c.maxStretch) ≤ dEnd := by
    nlinarith [heq, hd0, hM0]
  exact ⟨by linarith, by linarith⟩

/-- Witness for C5: a single stretched spring (length 2, rest length 1, both
endpoints free, one iteration): after the solve its length `11/10` lies in
the allowed band. -/
theorem constraint_bound_after_solve_witness :
    1 ≤ (tautCloth false 1).constraintIters ∧
    (((tautCloth false 1).springs.getD 0 default).restLength *
        (tautCloth false 1).maxCompress ≤ 11 / 10 ∧
      (11 / 10 : ℚ) ≤ ((tautCloth false 1).springs.getD 0 default).restLength *
        (tautCloth false 1).maxStretch) :=
  ⟨by decide,
    constraint_bound_after_solve (tautCloth false 1) 0 _ rfl (by decide) (by decide)
      _ rfl 2 (by decide) (by decide) (by decide) (Or.inl (by decide)) (by decide)
      (by decide) (by decide) (by decide) (by decide) ⟨by decide, by decide⟩
      (11 / 10) (by norm_num) (by decide)⟩

set_option maxRecDepth 8000 in
/-- C5 counterexample: a spring with both endpoints pinned is silently skipped,
so after `satisfyConstraints` its length 2 still exceeds
`restLength · maxStretch = 11/10` — the claimed bound does not hold for every
spring. -/
theorem constraint_bound_counterexample :
    vlength ((getP (satisfyConstraints (tautCloth true 15)).particles 1).position -
      (getP (satisfyConstraints (tautCloth true 15)).particles 0).position) = 2 ∧
    ¬((2 : ℚ) ≤ ((tautCloth true 15).springs.getD 0 default).restLength *
      (tautCloth true 15).maxStretch) := by
  constructor
  · decide
  · decide

/-- C1 (amended): in the free-fall scenario, one `update dt` from rest
displaces both particles downward by exactly `9.8·dt²` — the first Verlet step
from rest produces `a·dt²`, twice the continuous-time `0.5·a·dt²`. -/
theorem freefall_displacement (dt : ℚ) (hdt : 0 < dt) (i : Nat) (hi : i < 2) :
    (getP (update dt freefallCloth).particles i).position =
      (getP freefallCloth.particles i).position + ⟨0, -(49 / 5) * (dt * dt), 0⟩ := by
  have hdt' : dt ≠ 0 := ne_of_gt hdt
  have hps : freefallCloth.particles =
      [{ position := ⟨-(1/2), 0, 0⟩, prevPosition := ⟨-(1/2), 0, 0⟩, velocity := 0,
         force := 0, mass := 1, pinned := false },
       { position := ⟨1/2, 0, 0⟩, prevPosition := ⟨1/2, 0, 0⟩, velocity := 0,
         force := 0, mass := 1, pinned := false }] := by decide
  have hsp : freefallCloth.springs =
      [{ a := 0, b := 1, restLength := 1, stiffness := 0, damping := 0,
         type := SpringType.Structural }] := by decide
  have hF : applyForcesList freefallCloth.gravity freefallCloth.airDamping
      freefallCloth.springs freefallCloth.particles =
      [{ position := ⟨-(1/2), 0, 0⟩, prevPosition := ⟨-(1/2), 0, 0⟩, velocity := 0,
         force := ⟨0, -(49/5), 0⟩, mass := 1, pinned := false },
       { position := ⟨1/2, 0, 0⟩, prevPosition := ⟨1/2, 0, 0⟩, velocity := 0,
         force := ⟨0, -(49/5), 0⟩, mass := 1, pinned := false }] := by decide
  have key : (update dt freefallCloth).particles =
      (constraintPass (9/10) (11/10) freefallCloth.springs)^[15]
        ((applyForcesList freefallCloth.gravity freefallCloth.airDamping
          freefallCloth.springs freefallCloth.particles).map (integrateP dt)) := rfl
  rw [hF] at key
  have hAi : integrateP dt
      { position := ⟨-(1/2), 0, 0⟩, prevPosition := ⟨-(1/2), 0, 0⟩, velocity := 0,
        force := ⟨0, -(49/5), 0⟩, mass := 1, pinned := false } =
      { position := ⟨-(1/2), -(49/5) * (dt * dt), 0⟩, prevPosition := ⟨-(1/2), 0, 0⟩,
        velocity := ⟨0, -(49/10) * dt, 0⟩, force := ⟨0, -(49/5), 0⟩, mass := 1,
        pinned := false } := by
    unfold integrateP
    rw [if_neg (by decide)]
    ext
    · show (2:ℚ) * -(1/2) - -(1/2) + dt * dt * ((1/1) * 0) = -(1/2)
      ring
    · show (2:ℚ) * 0 - 0 + dt * dt * ((1/1) * -(49/5)) = -(49/5) * (dt * dt)
      ring
    · show (2:ℚ) * 0 - 0 + dt * dt * ((1/1) * 0) = 0
      ring
    · show (-(1/2) : ℚ) = -(1/2)
      rfl
    · show (0 : ℚ) = 0
      rfl
    · show (0 : ℚ) = 0
      rfl
    · show (1 / (2 * dt)) * ((2:ℚ) * -(1/2) - -(1/2) + dt * dt * ((1/1) * 0) - -(1/2)) = 0
      field_simp
      norm_num
    · show (1 / (2 * dt)) * ((2:ℚ) * 0 - 0 + dt * dt * ((1/1) * -(49/5)) - 0) = -(49/10) * dt
      field_simp
      ring
    · show (1 / (2 * dt)) * ((2:ℚ) * 0 - 0 + dt * dt * ((1/1) * 0) - 0) = 0
      field_simp
    · show (0 : ℚ) = 0
      rfl
    · show (-(49/5) : ℚ) = -(49/5)
      rfl
    · show (0 : ℚ) = 0
      rfl
    · show (1 : ℚ) = 1
      rfl
    · show false = false
      rfl
  have hBi : integrateP dt
      { position := ⟨1/2, 0, 0⟩, prevPosition := ⟨1/2, 0, 0⟩, velocity := 0,
        force := ⟨0, -(49/5), 0⟩, mass := 1, pinned := false } =
      { position := ⟨1/2, -(49/5) * (dt * dt), 0⟩, prevPosition := ⟨1/2, 0, 0⟩,
        velocity := ⟨0, -(49/10) * dt, 0⟩, force := ⟨0, -(49/5), 0⟩, mass := 1,
        pinned := false } := by
    unfold integrateP
    rw [if_neg (by decide)]
    ext
    · show (2:ℚ) * (1/2) - (1/2) + dt * dt * ((1/1) * 0) = 1/2
      ring
    · show (2:ℚ) * 0 - 0 + dt * dt * ((1/1) * -(49/5)) = -(49/5) * (dt * dt)
      ring
    · show (2:ℚ) * 0 - 0 + dt * dt * ((1/1) * 0) = 0
      ring
    · show ((1/2) : ℚ) = 1/2
      rfl
    · show (0 : ℚ) = 0
      rfl
    · show (0 : ℚ) = 0
      rfl
    · show (1 / (2 * dt)) * ((2:ℚ) * (1/2) - (1/2) + dt * dt * ((1/1) * 0) - (1/2)) = 0
      field_simp
      norm_num
    · show (1 / (2 * dt)) * ((2:ℚ) * 0 - 0 + dt * dt * ((1/1) * -(49/5)) - 0) = -(49/10) * dt
      field_simp
      ring
    · show (1 / (2 * dt)) * ((2:ℚ) * 0 - 0 + dt * dt * ((1/1) * 0) - 0) = 0
      field_simp
    · show (0 : ℚ) = 0
      rfl
    · show (-(49/5) : ℚ) = -(49/5)
      rfl
    · show (0 : ℚ) = 0
      rfl
    · show (1 : ℚ) = 1
      rfl
    · show false = false
      rfl
  rw [List.map_cons, List.map_cons, List.map_nil, hAi, hBi, hsp] at key
  have hsub : (getP
      [{ position := ⟨-(1/2), -(49/5) * (dt * dt), 0⟩, prevPosition := ⟨-(1/2), 0, 0⟩,
         velocity := ⟨0, -(49/10) * dt, 0⟩, force := ⟨0, -(49/5), 0⟩, mass := 1,
         pinned := false },
       { position := ⟨1/2, -(49/5) * (dt * dt), 0⟩, prevPosition := ⟨1/2, 0, 0⟩,
         velocity := ⟨0, -(49/10) * dt, 0⟩, force := ⟨0, -(49/5), 0⟩, mass := 1,
         pinned := false }]
      (({ a := 0, b := 1, restLength := 1, stiffness := 0, damping := 0,
          type := SpringType.Structural } : Spring).b)).position -
      (getP
      [{ position := ⟨-(1/2), -(49/5) * (dt * dt), 0⟩, prevPosition := ⟨-(1/2), 0, 0⟩,
         velocity := ⟨0, -(49/10) * dt, 0⟩, force := ⟨0, -(49/5), 0⟩, mass := 1,
         pinned := false },
       { position := ⟨1/2, -(49/5) * (dt * dt), 0⟩, prevPosition := ⟨1/2, 0, 0⟩,
         velocity := ⟨0, -(49/10) * dt, 0⟩, force := ⟨0, -(49/5), 0⟩, mass := 1,
         pinned := false }]
      (({ a := 0, b := 1, restLength := 1, stiffness := 0, damping := 0,
          type := SpringType.Structural } : Spring).a)).position = ⟨1, 0, 0⟩ := by
    show ((⟨1/2, -(49/5) * (dt * dt), 0⟩ : Vec3) - ⟨-(1/2), -(49/5) * (dt * dt), 0⟩) = ⟨1, 0, 0⟩
    ext
    · show (1/2 : ℚ) - -(1/2) = 1
      norm_num
    · show -(49/5) * (dt * dt) - -(49/5) * (dt * dt) = 0
      ring
    · show (0 : ℚ) - 0 = 0
      norm_num
  have hfix : constraintPass (9/10) (11/10)
      [{ a := 0, b := 1, restLength := 1, stiffness := 0, damping := 0,
         type := SpringType.Structural }]
      [{ position := ⟨-(1/2), -(49/5) * (dt * dt), 0⟩, prevPosition := ⟨-(1/2), 0, 0⟩,
         velocity := ⟨0, -(49/10) * dt, 0⟩, force := ⟨0, -(49/5), 0⟩, mass := 1,
         pinned := false },
       { position := ⟨1/2, -(49/5) * (dt * dt), 0⟩, prevPosition := ⟨1/2, 0, 0⟩,
         velocity := ⟨0, -(49/10) * dt, 0⟩, force := ⟨0, -(49/5), 0⟩, mass := 1,
         pinned := false }] =
      [{ position := ⟨-(1/2), -(49/5) * (dt * dt), 0⟩, prevPosition := ⟨-(1/2), 0, 0⟩,
         velocity := ⟨0, -(49/10) * dt, 0⟩, force := ⟨0, -(49/5), 0⟩, mass := 1,
         pinned := false },
       { position := ⟨1/2, -(49/5) * (dt * dt), 0⟩, prevPosition := ⟨1/2, 0, 0⟩,
         velocity := ⟨0, -(49/10) * dt, 0⟩, force := ⟨0, -(49/5), 0⟩, mass := 1,
         pinned := false }] := by
    unfold constraintPass
    rw [List.foldl_cons, List.foldl_nil]
    refine constraintStep_skip _ _ _ _ 1 ?_ (by norm_num) ?_
    · rw [hsub]
      decide
    · show ¬((1 : ℚ) < 1 * (9/10) ∨ (1 : ℚ) * (11/10) < 1)
      norm_num
  rw [Function.iterate_fixed hfix 15] at key
  rw [key, hps]
  interval_cases i
  · show (⟨-(1/2), -(49/5) * (dt * dt), 0⟩ : Vec3) = ⟨-(1/2), 0, 0⟩ + ⟨0, -(49/5) * (dt * dt), 0⟩
    ext
    · show (-(1/2) : ℚ) = -(1/2) + 0
      norm_num
    · show -(49/5) * (dt * dt) = 0 + -(49/5) * (dt * dt)
      ring
    · show (0 : ℚ) = 0 + 0
      norm_num
  · show (⟨1/2, -(49/5) * (dt * dt), 0⟩ : Vec3) = ⟨1/2, 0, 0⟩ + ⟨0, -(49/5) * (dt * dt), 0⟩
    ext
    · show (1/2 : ℚ) = 1/2 + 0
      norm_num
    · show -(49/5) * (dt * dt) = 0 + -(49/5) * (dt * dt)
      ring
    · show (0 : ℚ) = 0 + 0
      norm_num

/-- Witness for C1: the amended free-fall displacement at `dt = 1`. -/
theorem freefall_displacement_witness :
    (0 : ℚ) < 1 ∧
    (getP (update 1 freefallCloth).particles 0).position =
      (getP freefallCloth.particles 0).position + ⟨0, -(49 / 5) * (1 * 1), 0⟩ :=
  ⟨by norm_num, freefall_displacement 1 (by norm_num) 0 (by norm_num)⟩

set_option maxRecDepth 8000 in
/-- C1 counterexample: at `dt = 1` the code's downward displacement is
`9.8 = 49/5`, not the claimed `0.5·9.8·dt² = 49/10`; the two differ by `49/10`,
so the claimed value is not even approximately attained. -/
theorem freefall_claim_counterexample :
    (getP (update 1 freefallCloth).particles 0).position.y -
      (getP freefallCloth.particles 0).position.y = -(49 / 5) ∧
    ¬(-(49 / 5) : ℚ) = -((1 / 2) * (49 / 5) * (1 * 1)) ∧
    |(-(49 / 5) : ℚ) - -((1 / 2) * (49 / 5) * (1 * 1))| = 49 / 10 := by
  refine ⟨by decide, by norm_num, by norm_num⟩

/-- C7: `update` reads spring stiffness and damping only from the per-spring
copies made at build time — two cloths identical except for the public
`springStiffness`, `bendStiffness` and `springDamping` fields produce identical
particle states after `update dt`. -/
theorem update_ignores_stiffness_fields (dt : ℚ) (c1 c2 : Cloth)
    (hp : c1.particles = c2.particles) (hs : c1.springs = c2.springs)
    (hg : c1.gravity = c2.gravity) (ha : c1.airDamping = c2.airDamping)
    (hms : c1.maxStretch = c2.maxStretch) (hmc : c1.maxCompress = c2.maxCompress)
    (hci : c1.constraintIters = c2.constraintIters) :
    (update dt c1).particles = (update dt c2).particles := by
  simp only [update, satisfyConstraints, integrate, applyForces, hp, hs, hg, ha, hms, hmc, hci]

/-- Witness for C7: a fresh 2×2 cloth and the same cloth with its three
stiffness/damping fields overwritten give identical particles after `update`. -/
theorem update_ignores_stiffness_fields_witness :
    (update (1 / 60) (clothNew 2 2 1)).particles =
      (update (1 / 60) { clothNew 2 2 1 with springStiffness := 0, bendStiffness := 1, springDamping := 7 }).particles :=
  update_ignores_stiffness_fields (1 / 60) _ _ rfl rfl rfl rfl rfl rfl rfl

end ClothSim

namespace WindSim

open ClothSim

/-- C2 (amended): each wind-enabled `update dt` advances the accumulated-time
counter by `dt` exactly once, and the advance happens **before** force
accumulation, so the wind force computed during the *current* call already uses
the post-advance counter: `mass·windStrength·sin(2·(globalTime+dt))·windDirection`
(shown here for a springless state, which isolates the wind term). -/
theorem wind_uses_post_advance_time (sinF : ℚ → ℚ) (dt : ℚ) (c : WCloth)
    (hw : c.windEnabled = true) (hsp : c.springs = []) (i : Nat)
    (hi : i < c.particles.length) (hpin : (getP c.particles i).pinned = false) :
    (updateW sinF dt c).globalTime = c.globalTime + dt ∧
    updateW sinF dt c =
      satisfyConstraintsW (integrateW dt
        (applyForcesW sinF { c with globalTime := c.globalTime + dt })) ∧
    (getP (applyForcesW sinF { c with globalTime := c.globalTime + dt }).particles i).force =
      (getP c.particles i).mass • c.gravity -
        c.airDamping • (getP c.particles i).velocity +
        (c.windStrength * sinF ((c.globalTime + dt) * 2) * (getP c.particles i).mass) •
          c.windDirection := by
  refine ⟨rfl, rfl, ?_⟩
  have h1 : (applyForcesW sinF { c with globalTime := c.globalTime + dt }).particles =
      applyForcesListW sinF c.gravity c.airDamping c.windEnabled c.windStrength
        c.windDirection (c.globalTime + dt) c.springs c.particles := rfl
  rw [h1, hsp]
  have h2 : applyForcesListW sinF c.gravity c.airDamping c.windEnabled c.windStrength
      c.windDirection (c.globalTime + dt) [] c.particles =
      (c.particles.map resetForce).map
        (baseForceW c.gravity c.airDamping c.windEnabled c.windStrength c.windDirection
          (c.globalTime + dt) sinF) := rfl
  rw [h2, getP_map _ _ _ (by simpa using hi), getP_map _ _ _ hi]
  unfold baseForceW resetForce
  dsimp only
  rw [hpin, hw]
  rw [if_neg (by simp), if_pos rfl]
  ext <;> simp

/-- Witness for C2: the minimal wind scenario with `sin` modelled by the
identity function, `dt = 1`. -/
theorem wind_uses_post_advance_time_witness :
    (updateW (fun x => x) 1 windCl).globalTime = windCl.globalTime + 1 ∧
    (getP (applyForcesW (fun x => x)
        { windCl with globalTime := windCl.globalTime + 1 }).particles 0).force =
      (getP windCl.particles 0).mass • windCl.gravity -
        windCl.airDamping • (getP windCl.particles 0).velocity +
        (windCl.windStrength * (fun x : ℚ => x) ((windCl.globalTime + 1) * 2) *
          (getP windCl.particles 0).mass) • windCl.windDirection := by
  obtain ⟨h1, _, h3⟩ := wind_uses_post_advance_time (fun x => x) 1 windCl rfl rfl 0
    (by decide) (by decide)
  exact ⟨h1, h3⟩

/-- C2 counterexample: with `sin` modelled by the identity, unit wind along x,
`globalTime = 0` and `dt = 1`, the force accumulated during the current update
is `(2,0,0)` — the value prescribed by the post-advance counter — while the
claim's pre-advance formula `mass·windStrength·sin(2·globalTime)·windDirection`
evaluates to the zero vector; the particle correspondingly moves to `(2,0,0)`
rather than staying at rest. -/
theorem wind_phase_counterexample :
    (getP (applyForcesW (fun x => x)
        { windCl with globalTime := windCl.globalTime + 1 }).particles 0).force = ⟨2, 0, 0⟩ ∧
    ((getP windCl.particles 0).mass *
      (windCl.windStrength * (fun x : ℚ => x) (windCl.globalTime * 2))) • windCl.windDirection =
      (0 : Vec3) ∧
    (getP (updateW (fun x => x) 1 windCl).particles 0).position = ⟨2, 0, 0⟩ ∧
    ((⟨2, 0, 0⟩ : Vec3) ≠ (0 : Vec3)) := by
  refine ⟨by decide, by decide, by decide, by decide⟩

end WindSim
